import Mathlib

/-!
Verification of the ai-travel-assistant repository.

The repository is a React-Native (Expo) client.  The logic relevant to its
specification lives in:

  * `src/app/index.tsx` — `parseCoordinates` (home-screen variant);
  * `src/unnamed/part_000` — a single-screen app variant with its own
    `parseCoordinates`, `fetchDescription`, `synthesizeSpeech`, `playAudio`;
  * `src/app/location.tsx` — the location screen: `parseStrictJson`, `init`
    (the seed turn), `toggleTalk` (the voice cycle), `playMp3`,
    `stopAndUnloadSound`, `startRecording`, `stopRecording`;
  * `src/utils/openai.ts` — `getApiKey`, `chatCompletion`, `ttsToMp3`,
    `transcribeAudio`.

Strings are modelled as `List Char`; JavaScript numbers as `Rat` (the inputs
concerned are short decimal literals, whose decimal value is what the code
compares against the ±90/±180 bounds; the `Number.isNaN` guard in the source
can never fire on a regex-matched token and is noted where omitted).
Network and device effects are modelled by passing each call's outcome in
explicitly as an oracle value, and by recording the externally visible
actions (HTTP requests, transcript writes, sound operations, file deletion)
in an event trace.
-/

namespace TravelAssistant

/-! ## Character classes

`isWs` models the whitespace recognized both by `String.prototype.trim` and
by the regex class `\s` (restricted to the ASCII whitespace characters,
which are the only ones these coordinate strings can contain). -/
def isWs (c : Char) : Bool :=
  c = ' ' || c = '\t' || c = '\n' || c = '\r' || c = '\x0b' || c = '\x0c'

def isDigit (c : Char) : Bool :=
  '0' ≤ c && c ≤ '9'

/-- Strip leading and trailing whitespace: `String.prototype.trim`. -/
def trimWs (l : List Char) : List Char :=
  ((l.dropWhile isWs).reverse.dropWhile isWs).reverse

/-! ## Number tokens

A `NumTok` is the decomposition of one of the number tokens matched by the
coordinate regexes: an optional minus sign, 1–3 integer digits, and an
optional fraction (`fp = []` means no fraction; a present fraction has at
least one digit by construction). -/
structure NumTok where
  neg : Bool
  ip : List Char
  fp : List Char
deriving DecidableEq

def NumTok.flatten (t : NumTok) : List Char :=
  (cond t.neg ['-'] []) ++ t.ip ++ (match t.fp with
    | [] => []
    | f => '.' :: f)

def NumTok.wf (t : NumTok) : Prop :=
  t.ip ≠ [] ∧ t.ip.length ≤ 3 ∧ (∀ c ∈ t.ip, isDigit c = true) ∧
    (∀ c ∈ t.fp, isDigit c = true)

/-- Value of a digit string read in base 10. -/
def digitsVal (l : List Char) : Nat :=
  l.foldl (fun a c => 10 * a + (c.toNat - 48)) 0

/-- The numeric value `Number(...)` assigns to the token. -/
def NumTok.val (t : NumTok) : Rat :=
  (cond t.neg (-1) 1) *
    ((digitsVal t.ip : Rat) + (digitsVal t.fp : Rat) / (10 : Rat) ^ t.fp.length)

/-! ## The two number-token parsers

`parseNumIdx` models the group `(-?\d{1,3}(?:\.\d+)?)` from
`src/app/index.tsx`; `parseNumP0` models `(-?\d{1,3}\.\d+|\d{1,3})` from
`src/unnamed/part_000`.  Both regexes appear inside the anchored pattern
`^\s*G\s*,\s*G\s*$`, whose continuation after a number group can only start
with whitespace, a comma, or the end of input — never a digit or a dot — so
the backtracking regex engine accepts at a given start position exactly when
the greedy, committed parse below succeeds (any backtracked shorter digit
run leaves a digit as the next character, which the continuation rejects). -/
def splitSign : List Char → Bool × List Char
  | [] => (false, [])
  | c :: r => if c = '-' then (true, r) else (false, c :: r)

def takeDigits (l : List Char) : List Char := l.takeWhile isDigit

def dropDigits (l : List Char) : List Char := l.dropWhile isDigit

def parseNumIdx (l : List Char) : Option (NumTok × List Char) :=
  let ng := (splitSign l).1
  let l1 := (splitSign l).2
  let d := takeDigits l1
  if d = [] ∨ 3 < d.length then none
  else
    match dropDigits l1 with
    | '.' :: r2 =>
      if takeDigits r2 = [] then some (⟨ng, d, []⟩, '.' :: r2)
      else some (⟨ng, d, takeDigits r2⟩, dropDigits r2)
    | r1 => some (⟨ng, d, []⟩, r1)

def parseNumP0 (l : List Char) : Option (NumTok × List Char) :=
  let ng := (splitSign l).1
  let l1 := (splitSign l).2
  let d := takeDigits l1
  if d = [] ∨ 3 < d.length then none
  else
    match dropDigits l1 with
    | '.' :: r2 =>
      if takeDigits r2 = [] then
        if ng then none else some (⟨false, d, []⟩, '.' :: r2)
      else some (⟨ng, d, takeDigits r2⟩, dropDigits r2)
    | r1 => if ng then none else some (⟨false, d, []⟩, r1)

/-! ## The coordinate parser

`runCoordParser` is the common shape of both `parseCoordinates` functions:
trim, match `^\s*NUM\s*,\s*NUM\s*$`, convert both captures with `Number`,
reject out-of-range values.  (The source returns a normalized string built
from the two numbers; the claims only concern whether a value is returned,
so the model returns the pair of numeric values.  The `Number.isNaN` guard
cannot fire on a token matched by either number grammar.) -/
def runCoordParser (pnum : List Char → Option (NumTok × List Char))
    (l : List Char) : Option (Rat × Rat) :=
  let l0 := trimWs l
  match pnum (l0.dropWhile isWs) with
  | none => none
  | some (a, r1) =>
    match r1.dropWhile isWs with
    | ',' :: r3 =>
      match pnum (r3.dropWhile isWs) with
      | none => none
      | some (b, r5) =>
        if (r5.dropWhile isWs).isEmpty then
          if a.val < -90 ∨ 90 < a.val ∨ b.val < -180 ∨ 180 < b.val then none
          else some (a.val, b.val)
        else none
    | _ => none

/-- The `parseCoordinates` of `src/app/index.tsx`. -/
def parseCoordinatesIdx (s : String) : Option (Rat × Rat) :=
  runCoordParser parseNumIdx s.data

/-- The `parseCoordinates` of `src/unnamed/part_000`. -/
def parseCoordinatesP0 (s : String) : Option (Rat × Rat) :=
  runCoordParser parseNumP0 s.data

/-! ## The claim-side grammar

`CoordGrammar P s` spells out, as a plain decomposition, the sentence of the
claim: the trimmed text is two number tokens separated by a comma with
optional whitespace around it, each token well-formed (optional minus, 1–3
integer digits, optional fraction) and satisfying the extra token predicate
`P`, with the first value in [-90, 90] and the second in [-180, 180]. -/
def allWs (l : List Char) : Prop := ∀ c ∈ l, isWs c = true

def CoordGrammar (P : NumTok → Prop) (s : List Char) : Prop :=
  ∃ a b w1 w2 w3 w4,
    trimWs s = w1 ++ a.flatten ++ w2 ++ ',' :: (w3 ++ b.flatten ++ w4) ∧
    allWs w1 ∧ allWs w2 ∧ allWs w3 ∧ allWs w4 ∧
    a.wf ∧ b.wf ∧ P a ∧ P b ∧
    -90 ≤ a.val ∧ a.val ≤ 90 ∧ -180 ≤ b.val ∧ b.val ≤ 180

/-! ## List and character helper lemmas -/
def headNot (p : Char → Bool) : List Char → Prop
  | [] => True
  | c :: _ => p c = false

/-- Continuation condition after a number token inside the anchored pattern:
what follows starts with whitespace, a comma, or is the end of the string. -/
def sepOk : List Char → Prop
  | [] => True
  | c :: _ => isWs c = true ∨ c = ','

/-! ## Claim C1 -/
/-- Token predicate of the `part_000` number grammar `(-?\d{1,3}\.\d+|\d{1,3})`:
a minus sign is only possible in the first alternative, which requires a
decimal fraction. -/
def P0Tok (t : NumTok) : Prop := t.neg = true → t.fp ≠ []

/-! ## JSON values and a model of `JSON.parse`

`parseStrictJson` in `src/app/location.tsx` calls the runtime's
`JSON.parse`.  `jsonParse` below is a standard recursive-descent JSON reader
(objects keeping the last of duplicate keys, as JavaScript objects do),
total via an explicit fuel argument that is always sufficient for its input
length. -/
def isJWs (c : Char) : Bool :=
  c = ' ' || c = '\t' || c = '\n' || c = '\r'

def jskip (l : List Char) : List Char := l.dropWhile isJWs

inductive JVal where
  | jnull : JVal
  | jbool : Bool → JVal
  | jnum : Rat → JVal
  | jstr : List Char → JVal
  | jarr : List JVal → JVal
  | jobj : List (List Char × JVal) → JVal

def tickChar : Char := Char.ofNat 96

def lbraceChar : Char := Char.ofNat 123

def rbraceChar : Char := Char.ofNat 125

def hexVal (c : Char) : Option Nat :=
  if '0' ≤ c && c ≤ '9' then some (c.toNat - 48)
  else if 'a' ≤ c && c ≤ 'f' then some (c.toNat - 87)
  else if 'A' ≤ c && c ≤ 'F' then some (c.toNat - 55)
  else none

/-- Body of a JSON string after the opening quote: returns the decoded
characters and the rest after the closing quote. -/
def parseJStr : List Char → Option (List Char × List Char)
  | [] => none
  | c :: r =>
    if c = '\"' then some ([], r)
    else if c = '\\' then
      match r with
      | [] => none
      | e :: r2 =>
        if e = '\"' then (parseJStr r2).map (fun p => ('\"' :: p.1, p.2))
        else if e = '\\' then (parseJStr r2).map (fun p => ('\\' :: p.1, p.2))
        else if e = '/' then (parseJStr r2).map (fun p => ('/' :: p.1, p.2))
        else if e = 'b' then
          (parseJStr r2).map (fun p => (Char.ofNat 8 :: p.1, p.2))
        else if e = 'f' then
          (parseJStr r2).map (fun p => (Char.ofNat 12 :: p.1, p.2))
        else if e = 'n' then (parseJStr r2).map (fun p => ('\n' :: p.1, p.2))
        else if e = 'r' then (parseJStr r2).map (fun p => ('\r' :: p.1, p.2))
        else if e = 't' then (parseJStr r2).map (fun p => ('\t' :: p.1, p.2))
        else if e = 'u' then
          match r2 with
          | h1 :: h2 :: h3 :: h4 :: r3 =>
            match hexVal h1, hexVal h2, hexVal h3, hexVal h4 with
            | some a, some b, some c2, some d =>
              (parseJStr r3).map
                (fun p =>
                  (Char.ofNat (((a * 16 + b) * 16 + c2) * 16 + d) :: p.1, p.2))
            | _, _, _, _ => none
          | _ => none
        else none
    else if c.toNat < 32 then none
    else (parseJStr r).map (fun p => (c :: p.1, p.2))

/-- A JSON number token: optional sign, integer part (a lone `0` or a
nonzero-led digit run), optional fraction, optional exponent. -/
def parseJNum (l : List Char) : Option (Rat × List Char) :=
  let sg := splitSign l
  match sg.2 with
  | [] => none
  | c :: r =>
    let ipart : Option (Nat × List Char) :=
      if c = '0' then some (0, r)
      else if isDigit c then
        some (digitsVal (takeDigits (c :: r)), dropDigits (c :: r))
      else none
    match ipart with
    | none => none
    | some (iv, r1) =>
      let fpart : Option (Nat × Nat × List Char) :=
        match r1 with
        | '.' :: r2 =>
          if takeDigits r2 = [] then none
          else some (digitsVal (takeDigits r2), (takeDigits r2).length,
            dropDigits r2)
        | _ => some (0, 0, r1)
      match fpart with
      | none => none
      | some (fv, fl, r3) =>
        let epart : Option (Int × List Char) :=
          match r3 with
          | e :: r4 =>
            if e = 'e' ∨ e = 'E' then
              let es : Int × List Char :=
                match r4 with
                | s :: r5 =>
                  if s = '+' then (1, r5)
                  else if s = '-' then (-1, r5)
                  else (1, s :: r5)
                | [] => (1, [])
              if takeDigits es.2 = [] then none
              else some (es.1 * (digitsVal (takeDigits es.2) : Int),
                dropDigits es.2)
            else some (0, e :: r4)
          | [] => some (0, [])
        match epart with
        | none => none
        | some (ev, r6) =>
          some ((cond sg.1 (-1) 1) *
            (((iv : Rat) + (fv : Rat) / (10 : Rat) ^ fl) * (10 : Rat) ^ ev), r6)

mutual

def parseJVal : Nat → List Char → Option (JVal × List Char)
  | 0, _ => none
  | fuel + 1, l =>
    match jskip l with
    | 'n' :: 'u' :: 'l' :: 'l' :: r => some (.jnull, r)
    | 't' :: 'r' :: 'u' :: 'e' :: r => some (.jbool true, r)
    | 'f' :: 'a' :: 'l' :: 's' :: 'e' :: r => some (.jbool false, r)
    | c :: r =>
      if c = '\"' then (parseJStr r).map (fun p => (.jstr p.1, p.2))
      else if c = '[' then
        match jskip r with
        | ']' :: r2 => some (.jarr [], r2)
        | l2 => (parseJArrItems fuel l2).map (fun p => (.jarr p.1, p.2))
      else if c = lbraceChar then
        match jskip r with
        | cc :: r2 =>
          if cc = rbraceChar then some (.jobj [], r2)
          else (parseJObjItems fuel (cc :: r2)).map (fun p => (.jobj p.1, p.2))
        | [] => none
      else (parseJNum (c :: r)).map (fun p => (.jnum p.1, p.2))
    | [] => none

def parseJArrItems : Nat → List Char → Option (List JVal × List Char)
  | 0, _ => none
  | fuel + 1, l =>
    match parseJVal fuel l with
    | none => none
    | some (v, r) =>
      match jskip r with
      | ',' :: r2 => (parseJArrItems fuel r2).map (fun p => (v :: p.1, p.2))
      | ']' :: r2 => some ([v], r2)
      | _ => none

def parseJObjItems :
    Nat → List Char → Option (List (List Char × JVal) × List Char)
  | 0, _ => none
  | fuel + 1, l =>
    match jskip l with
    | c :: r =>
      if c = '\"' then
        match parseJStr r with
        | none => none
        | some (k, r2) =>
          match jskip r2 with
          | ':' :: r3 =>
            match parseJVal fuel r3 with
            | none => none
            | some (v, r4) =>
              match jskip r4 with
              | ',' :: r5 =>
                (parseJObjItems fuel r5).map (fun p => ((k, v) :: p.1, p.2))
              | cc :: r5 =>
                if cc = rbraceChar then some ([(k, v)], r5) else none
              | [] => none
          | _ => none
      else none
    | [] => none

end

/-- Model of `JSON.parse`: one complete JSON value with surrounding
whitespace, nothing trailing. -/
def jsonParse (l : List Char) : Option JVal :=
  match parseJVal (2 * l.length + 4) l with
  | some (v, r) => if jskip r = [] then some v else none
  | none => none

/-! ## `parseStrictJson` (src/app/location.tsx, lines 61–75) -/
/-- The parsed `{ name, description }` shape of the first assistant reply. -/
structure LocationInfo where
  name : List Char
  description : List Char
deriving DecidableEq

/-- Field access on a JavaScript object built by `JSON.parse`: with duplicate
keys the last occurrence wins. -/
def lookupLast (fs : List (List Char × JVal)) (k : List Char) : Option JVal :=
  fs.foldl (fun acc p => if p.1 = k then some p.2 else acc) none

/-- The check `j && typeof j.name === 'string'`: the parsed value must be an
object whose `k` field is a string. -/
def strField (v : JVal) (k : List Char) : Option (List Char) :=
  match v with
  | .jobj fs =>
    match lookupLast fs k with
    | some (.jstr s) => some s
    | _ => none
  | _ => none

/-- One attempt of `parseStrictJson`'s body: `JSON.parse` the text and check
that `name` and `description` are both strings. -/
def tryParseInfo (l : List Char) : Option LocationInfo :=
  match jsonParse l with
  | some j =>
    match strField j ("name".data), strField j ("description".data) with
    | some nm, some d => some ⟨nm, d⟩
    | _, _ => none
  | none => none

/-- The optional `(?:json)?` tag (case-insensitive, per the `/i` flag)
followed by the mandatory `\n` of the fenced-block regex: either a newline
at once, or the four letters of `json` then a newline.  Returns the text
after the newline. -/
def fenceTag : List Char → Option (List Char)
  | nl :: r1 =>
    if nl = '\n' then some r1
    else
      match r1 with
      | x :: o :: y :: nl2 :: r2 =>
        if nl.toLower = 'j' ∧ x.toLower = 's' ∧ o.toLower = 'o' ∧
            y.toLower = 'n' ∧ nl2 = '\n' then some r2
        else none
      | _ => none
  | [] => none

/-- Opening fence `` ```(?:json)?\n ``: three backticks then the tag and
newline. -/
def fenceOpen : List Char → Option (List Char)
  | a :: b :: c :: rest =>
    if a = tickChar ∧ b = tickChar ∧ c = tickChar then fenceTag rest
    else none
  | _ => none

/-- The lazy capture `([\s\S]*?)` followed by `` ``` ``: split at the first
closing fence, returning the captured content and the text after it. -/
def splitAtFence : List Char → Option (List Char × List Char)
  | a :: b :: c :: r =>
    if a = tickChar ∧ b = tickChar ∧ c = tickChar then some ([], r)
    else (splitAtFence (b :: c :: r)).map (fun p => (a :: p.1, p.2))
  | _ => none

/-- Leftmost match of `` /```(?:json)?\n([\s\S]*?)```/i ``: scan start
positions left to right; at each, the match succeeds exactly when the
opening fence is present and a closing fence occurs later. -/
def fencedExtract : List Char → Option (List Char)
  | [] => none
  | a :: rest =>
    match fenceOpen (a :: rest) with
    | some afterOpen =>
      match splitAtFence afterOpen with
      | some (content, _) => some content
      | none => fencedExtract rest
    | none => fencedExtract rest

/-- `parseStrictJson`: direct `JSON.parse` attempt first ­— both a parse
error and missing/non-string fields fall through — then the same attempt on
the contents of the first fenced code block, if any. -/
def parseStrictJson (raw : List Char) : Option LocationInfo :=
  match tryParseInfo raw with
  | some i => some i
  | none =>
    match fencedExtract raw with
    | some inner => tryParseInfo inner
    | none => none

/-! ## Provider client (src/utils/openai.ts)

Each operation takes the startup configuration, an oracle describing what
the external HTTP service would answer if called, and returns the
`Except`-style result together with the list of externally visible events it
performed.  A network request appears in the event list exactly when the
source reaches its `fetch` call. -/
inductive Role where
  | system
  | user
  | assistant
deriving DecidableEq

structure ChatMessage where
  role : Role
  content : List Char
deriving DecidableEq

/-- The system instruction of `src/app/location.tsx`. -/
def SYSTEM_PROMPT : List Char :=
  ("You are a concise travel guide. Always respond in the user's language if possible. Stay on-topic for the given coordinates and location.\nFor the first response, you must return STRICT JSON only in the following shape and nothing else:\n\x7b\n  \"name\": \"<short location name>\",\n  \"description\": \"<1-2 sentence interesting overview>\"\x7d").data

def systemMsg : ChatMessage := ⟨.system, SYSTEM_PROMPT⟩

inductive Service where
  | chat
  | tts
  | stt
deriving DecidableEq

/-- The error kinds thrown by the source, by message:
`missingCredential` = 'Missing OPENAI_API_KEY', `providerError` = the three
'OpenAI ... error: status body' messages, `emptyReply` = 'No content' /
'No transcript', `missingFile` = 'Audio file does not exist',
`malformedReply` = 'Failed to parse location JSON', `missingCoordinates` =
'Missing coordinates', `audioFailure` = a platform audio call rejecting. -/
inductive AppError where
  | missingCredential
  | providerError (svc : Service) (status : Nat) (body : List Char)
  | emptyReply (svc : Service)
  | missingFile
  | malformedReply
  | missingCoordinates
  | audioFailure
deriving DecidableEq

/-- `Constants.expoConfig.extra.openaiApiKey`, resolved from the process
configuration (`app.config.js` reads `process.env.OPENAI_API_KEY`). -/
structure Config where
  openaiApiKey : Option (List Char)

/-- What the HTTP service would answer: a non-2xx status with a body, or a
2xx response carrying `α`. -/
inductive HttpOutcome (α : Type) where
  | err (status : Nat) (body : List Char) : HttpOutcome α
  | ok (a : α) : HttpOutcome α

inductive Event where
  | chatRequest (msgs : List ChatMessage)
  | ttsRequest (input : List Char) (voice : List Char)
  | sttRequest (file : List Char)
  | setMessagesEvent (msgs : List ChatMessage)
  | soundStop (h : Nat)
  | soundUnload (h : Nat)
  | soundCreate (h : Nat) (uri : List Char)
  | deleteFile (path : List Char) (idem : Bool)
deriving DecidableEq

/-- `chatCompletion` of `src/utils/openai.ts`: `getApiKey()` is evaluated
while building the request headers, before `fetch`; a non-ok status throws
with status and body; a missing or empty (after trim) content throws
'No content'. The chat oracle's `ok none` is a 2xx response without usable
`choices[0].message.content`; `ok (some t)` carries the raw content. -/
def chatCompletion (cfg : Config) (o : HttpOutcome (Option (List Char)))
    (msgs : List ChatMessage) : Except AppError (List Char) × List Event :=
  match cfg.openaiApiKey with
  | none => (.error .missingCredential, [])
  | some _ =>
    match o with
    | .err st b => (.error (.providerError .chat st b), [.chatRequest msgs])
    | .ok none => (.error (.emptyReply .chat), [.chatRequest msgs])
    | .ok (some t) =>
      if trimWs t = [] then (.error (.emptyReply .chat), [.chatRequest msgs])
      else (.ok (trimWs t), [.chatRequest msgs])

def cacheDirectory : List Char := "file:///cache/".data

/-- `FileSystem.cacheDirectory + `speech-${Date.now()}.mp3``. -/
def ttsFileName (ts : Nat) : List Char :=
  cacheDirectory ++ ("speech-".data) ++ (toString ts).data ++ (".mp3".data)

/-- `ttsToMp3`: key check in header construction before `fetch`; on success
the audio bytes are written to a timestamp-named cache file whose path is
returned. -/
def ttsToMp3 (cfg : Config) (o : HttpOutcome Unit) (ts : Nat)
    (text voice : List Char) : Except AppError (List Char) × List Event :=
  match cfg.openaiApiKey with
  | none => (.error .missingCredential, [])
  | some _ =>
    match o with
    | .err st b => (.error (.providerError .tts st b), [.ttsRequest text voice])
    | .ok _ => (.ok (ttsFileName ts), [.ttsRequest text voice])

/-- `transcribeAudio`: `FileSystem.getInfoAsync` runs first and throws
'Audio file does not exist' for a missing file; only then is the form built
and the key resolved in the headers, before `fetch`.  `fs` is the state of
the file system (does a path exist). -/
def transcribeAudio (cfg : Config) (fs : List Char → Bool)
    (o : HttpOutcome (Option (List Char))) (uri : List Char) :
    Except AppError (List Char) × List Event :=
  if fs uri = false then (.error .missingFile, [])
  else
    match cfg.openaiApiKey with
    | none => (.error .missingCredential, [])
    | some _ =>
      match o with
      | .err st b => (.error (.providerError .stt st b), [.sttRequest uri])
      | .ok none => (.error (.emptyReply .stt), [.sttRequest uri])
      | .ok (some t) =>
        if trimWs t = [] then (.error (.emptyReply .stt), [.sttRequest uri])
        else (.ok (trimWs t), [.sttRequest uri])

/-! ## Audio playback (playMp3 in location.tsx, playAudio in part_000)

A sound handle is a `Nat`; the screen keeps `soundRef : Option Nat` and a
fresh-handle counter.  `stopAndUnloadSound` stops and unloads the current
sound (each step wrapped in try/catch in the source, so failures change
nothing) and clears the ref. -/
inductive PlayOutcome where
  | ok
  | failure
deriving DecidableEq

def stopAndUnloadSound (snd : Option Nat) : Option Nat × List Event :=
  match snd with
  | none => (none, [])
  | some h => (none, [.soundStop h, .soundUnload h])

/-- `playMp3`: stop and unload any current sound, configure the audio mode,
create the new sound with `shouldPlay: true` and store its handle.  A
rejection of `setAudioModeAsync`/`createAsync` (`PlayOutcome.failure`)
propagates to the caller with no new handle created. -/
def playMp3 (snd : Option Nat) (fresh : Nat) (o : PlayOutcome)
    (uri : List Char) : Except AppError Unit × Option Nat × Nat × List Event :=
  match stopAndUnloadSound snd with
  | (s1, ev1) =>
    match o with
    | .failure => (.error .audioFailure, s1, fresh, ev1)
    | .ok => (.ok (), some fresh, fresh + 1, ev1 ++ [.soundCreate fresh uri])

/-- `playAudio` of `src/unnamed/part_000`: the same stop, unload, configure,
create-and-store sequence against its own `soundRef`. -/
def playAudio (snd : Option Nat) (fresh : Nat) (o : PlayOutcome)
    (uri : List Char) : Except AppError Unit × Option Nat × Nat × List Event :=
  match (match snd with
    | none => ((none : Option Nat), ([] : List Event))
    | some h => (none, [.soundStop h, .soundUnload h])) with
  | (s1, ev1) =>
    match o with
    | .failure => (.error .audioFailure, s1, fresh, ev1)
    | .ok => (.ok (), some fresh, fresh + 1, ev1 ++ [.soundCreate fresh uri])

/-! ## The location screen (src/app/location.tsx) -/
structure ScreenState where
  title : List Char
  loading : Bool
  chatLoading : Bool
  error : Option AppError
  isTalking : Bool
  messages : List ChatMessage
  sound : Option Nat
  nextHandle : Nat
  recording : Bool
deriving DecidableEq

/-- The screen's initial hook state: `useState` initializers, with
`messages` seeded with the single system turn. -/
def initialScreenState : ScreenState :=
  ⟨[], true, false, none, false, [systemMsg], none, 0, false⟩

/-- Oracle for one run of `init`: the chat-completion answer, the
text-to-speech answer, the timestamp used for the synthesized file name, and
whether playback setup succeeds. -/
structure InitEnv where
  chat : HttpOutcome (Option (List Char))
  tts : HttpOutcome Unit
  ts : Nat
  play : PlayOutcome

/-- The seed user turn: `` `Coordinates: ${coords}` ``. -/
def coordMsg (c : List Char) : ChatMessage :=
  ⟨.user, ("Coordinates: ".data) ++ c⟩

/-- `init` (the seed turn): guard on missing coords; chat with
[system, user "Coordinates: ..."]; strict-JSON parse (throwing 'Failed to
parse location JSON' on failure); store the title and seed `messages` with
exactly three turns; synthesize; play.  The catch stores the error message;
the finally clears `loading`. -/
def init (cfg : Config) (coords : Option (List Char)) (env : InitEnv)
    (s : ScreenState) : ScreenState × List Event :=
  match coords with
  | none => ({ s with error := some .missingCoordinates, loading := false }, [])
  | some c =>
    let s1 := { s with loading := true, error := none }
    let userMsg : ChatMessage := coordMsg c
    match chatCompletion cfg env.chat [systemMsg, userMsg] with
    | (.error e, ev) => ({ s1 with error := some e, loading := false }, ev)
    | (.ok text, ev1) =>
      match parseStrictJson text with
      | none =>
        ({ s1 with error := some .malformedReply, loading := false }, ev1)
      | some info =>
        let seeded := [systemMsg, userMsg, ⟨.assistant, info.description⟩]
        let s2 := { s1 with title := info.name, messages := seeded }
        let ev2 := ev1 ++ [.setMessagesEvent seeded]
        match ttsToMp3 cfg env.tts env.ts info.description ("nova".data) with
        | (.error e, ev3) =>
          ({ s2 with error := some e, loading := false }, ev2 ++ ev3)
        | (.ok path, ev3) =>
          match playMp3 s2.sound s2.nextHandle env.play path with
          | (.error e, snd, nh, ev4) =>
            ({ s2 with
                error := some e, loading := false, sound := snd,
                nextHandle := nh }, ev2 ++ ev3 ++ ev4)
          | (.ok _, snd, nh, ev4) =>
            ({ s2 with loading := false, sound := snd, nextHandle := nh },
              ev2 ++ ev3 ++ ev4)

/-- Oracle for one `toggleTalk` call: whether `startRecording` succeeds,
what `stopRecording` returns, the file-system state, the three provider
answers, the synthesis timestamp, the playback outcome, and whether the
temp-file deletion succeeds (`deleteOk` — unread, because the source wraps
`deleteAsync` in try/catch and ignores the result). -/
structure TalkEnv where
  recStart : Bool
  stopUri : Option (List Char)
  fs : List Char → Bool
  stt : HttpOutcome (Option (List Char))
  chat : HttpOutcome (Option (List Char))
  tts : HttpOutcome Unit
  ts : Nat
  play : PlayOutcome
  deleteOk : Bool

/-- `toggleTalk`: no-op while loading; Talk starts recording (reverting
`isTalking` on a capture failure); Stop transcribes, appends the user turn
immediately, chats, appends the assistant turn, synthesizes and plays —
every failure in that try-block is swallowed — and the finally clears
`chatLoading` and best-effort deletes the recording file with
`idempotent: true`. -/
def toggleTalk (cfg : Config) (env : TalkEnv) (s : ScreenState) :
    ScreenState × List Event :=
  if s.loading || s.chatLoading then (s, [])
  else if !s.isTalking then
    if env.recStart then ({ s with isTalking := true, recording := true }, [])
    else (s, [])
  else
    let s0 := { s with isTalking := false, recording := false }
    match env.stopUri with
    | none => (s0, [])
    | some uri =>
      let delEv : List Event := [.deleteFile uri true]
      match transcribeAudio cfg env.fs env.stt uri with
      | (.error _, evA) => ({ s0 with chatLoading := false }, evA ++ delEv)
      | (.ok transcript, evA) =>
        let m1 := s0.messages ++ [⟨.user, transcript⟩]
        let s2 := { s0 with messages := m1 }
        let evB := evA ++ [.setMessagesEvent m1]
        match chatCompletion cfg env.chat m1 with
        | (.error _, evC) =>
          ({ s2 with chatLoading := false }, evB ++ evC ++ delEv)
        | (.ok reply, evC) =>
          let m2 := m1 ++ [⟨.assistant, reply⟩]
          let s3 := { s2 with messages := m2 }
          let evD := evB ++ evC ++ [.setMessagesEvent m2]
          match ttsToMp3 cfg env.tts env.ts reply ("nova".data) with
          | (.error _, evE) =>
            ({ s3 with chatLoading := false }, evD ++ evE ++ delEv)
          | (.ok path, evE) =>
            match playMp3 s3.sound s3.nextHandle env.play path with
            | (_, snd, nh, evF) =>
              ({ s3 with
                  chatLoading := false, sound := snd,
                  nextHandle := nh }, evD ++ evE ++ evF ++ delEv)

/-- One full voice cycle: a Talk press (start recording) followed by a Stop
press (transcribe, chat, speak). -/
def voiceCycle (cfg : Config) (env : TalkEnv) (s : ScreenState) : ScreenState :=
  (toggleTalk cfg env (toggleTalk cfg env s).1).1

def runCycles (cfg : Config) (envs : List TalkEnv) (s : ScreenState) :
    ScreenState :=
  envs.foldl (fun st e => voiceCycle cfg e st) s

/-! ## Active-playback accounting for the sound trace

A handle is active from its `soundCreate` until its `soundUnload` (release).
`allPrefixesBounded evs acc` says that starting from the active set `acc`,
after every prefix of `evs` at most one handle is active. -/
def handlesOf : Option Nat → List Nat
  | none => []
  | some h => [h]

def stepActive (e : Event) (acc : List Nat) : List Nat :=
  match e with
  | .soundCreate h _ => acc ++ [h]
  | .soundUnload h => acc.filter (fun x => x != h)
  | _ => acc

def activeHandles (evs : List Event) (acc : List Nat) : List Nat :=
  evs.foldl (fun a e => stepActive e a) acc

def allPrefixesBounded : List Event → List Nat → Prop
  | [], acc => acc.length ≤ 1
  | e :: rest, acc => acc.length ≤ 1 ∧ allPrefixesBounded rest (stepActive e acc)

/-- A sequence of `playMp3` calls threading the sound ref and the handle
counter, concatenating their event traces. -/
def runPlaysMp3 :
    List (PlayOutcome × List Char) → Option Nat → Nat →
      (Option Nat × Nat) × List Event
  | [], snd, fresh => ((snd, fresh), [])
  | (o, uri) :: ps, snd, fresh =>
    match playMp3 snd fresh o uri with
    | (_, snd2, f2, ev) =>
      match runPlaysMp3 ps snd2 f2 with
      | (st, evs) => (st, ev ++ evs)

/-! ## Claim C6 -/
/-- A follow-up cycle whose environment makes every step succeed: the
recording starts, stopping yields a file that exists, the credential is
present, transcription and chat return nonempty text, and synthesis and
playback succeed. -/
def CycleSuccess (cfg : Config) (env : TalkEnv) : Prop :=
  env.recStart = true ∧
  (∃ u, env.stopUri = some u ∧ env.fs u = true) ∧
  (∃ k, cfg.openaiApiKey = some k) ∧
  (∃ t, env.stt = .ok (some t) ∧ trimWs t ≠ []) ∧
  (∃ a, env.chat = .ok (some a) ∧ trimWs a ≠ []) ∧
  env.tts = .ok () ∧ env.play = .ok

theorem dropWhile_append_all {p : Char → Bool} {w l : List Char}
    (hw : ∀ c ∈ w, p c = true) : (w ++ l).dropWhile p = l.dropWhile p := by
  induction w with
  | nil => rfl
  | cons c w ih =>
    have hc : p c = true := hw c (List.mem_cons_self c w)
    simp [List.dropWhile_cons, hc]
    exact ih (fun x hx => hw x (List.mem_cons_of_mem c hx))

theorem dropWhile_eq_self_of_headNot {p : Char → Bool} {l : List Char}
    (h : headNot p l) : l.dropWhile p = l := by
  cases l with
  | nil => rfl
  | cons c r =>
    have hc : p c = false := h
    simp [List.dropWhile_cons, hc]

theorem dropWhile_all_nil {p : Char → Bool} {w : List Char}
    (hw : ∀ c ∈ w, p c = true) : w.dropWhile p = [] := by
  have := dropWhile_append_all (l := []) hw
  simpa using this

theorem takeWhile_append_exact {p : Char → Bool} {d r : List Char}
    (hd : ∀ c ∈ d, p c = true) (hr : headNot p r) :
    (d ++ r).takeWhile p = d ∧ (d ++ r).dropWhile p = r := by
  induction d with
  | nil =>
    constructor
    · cases r with
      | nil => rfl
      | cons c rr =>
        have hc : p c = false := hr
        simp [List.takeWhile_cons, hc]
    · exact dropWhile_eq_self_of_headNot hr
  | cons c dd ih =>
    have hc : p c = true := hd c (List.mem_cons_self c dd)
    have ihh := ih (fun x hx => hd x (List.mem_cons_of_mem c hx))
    constructor
    · simp [List.takeWhile_cons, hc, ihh.1]
    · simp [List.dropWhile_cons, hc, ihh.2]

theorem mem_takeWhile_pred {p : Char → Bool} {l : List Char} :
    ∀ c ∈ l.takeWhile p, p c = true := by
  induction l with
  | nil => intro c hc; simp [List.takeWhile] at hc
  | cons a r ih =>
    intro c hc
    by_cases ha : p a = true
    · rw [List.takeWhile_cons, if_pos ha] at hc
      rcases List.mem_cons.mp hc with h | h
      · exact h ▸ ha
      · exact ih c h
    · rw [List.takeWhile_cons, if_neg ha] at hc
      simp at hc

theorem headNot_dropWhile (p : Char → Bool) (l : List Char) :
    headNot p (l.dropWhile p) := by
  induction l with
  | nil => trivial
  | cons c r ih =>
    by_cases hc : p c = true
    · rw [List.dropWhile_cons, if_pos hc]; exact ih
    · rw [List.dropWhile_cons, if_neg hc]
      simpa [headNot] using (Bool.not_eq_true _).mp hc

theorem dropWhile_nil_all {p : Char → Bool} {l : List Char}
    (h : l.dropWhile p = []) : ∀ c ∈ l, p c = true := by
  induction l with
  | nil => intro c hc; simp at hc
  | cons a r ih =>
    intro c hc
    by_cases ha : p a = true
    · rw [List.dropWhile_cons, if_pos ha] at h
      rcases List.mem_cons.mp hc with hh | hh
      · exact hh ▸ ha
      · exact ih h c hh
    · rw [List.dropWhile_cons, if_neg ha] at h
      simp at h

theorem splitSign_append (l : List Char) :
    l = (cond (splitSign l).1 ['-'] []) ++ (splitSign l).2 := by
  cases l with
  | nil => rfl
  | cons c r =>
    by_cases h : c = '-'
    · subst h; simp [splitSign]
    · simp [splitSign, h]

theorem ws_char_props {c : Char} (h : isWs c = true) :
    isDigit c = false ∧ c ≠ ',' ∧ c ≠ '.' ∧ c ≠ '-' := by
  simp only [isWs, Bool.or_eq_true, decide_eq_true_eq] at h
  rcases h with (((((h | h) | h) | h) | h) | h) <;> subst h <;>
    exact ⟨by decide, by decide, by decide, by decide⟩

theorem digit_char_props {c : Char} (h : isDigit c = true) :
    isWs c = false ∧ c ≠ ',' ∧ c ≠ '.' ∧ c ≠ '-' := by
  refine ⟨?_, ?_, ?_, ?_⟩
  · cases hw : isWs c with
    | false => rfl
    | true => rw [(ws_char_props hw).1] at h; exact absurd h (by decide)
  · rintro rfl; revert h; decide
  · rintro rfl; revert h; decide
  · rintro rfl; revert h; decide

theorem headNot_digit_of_sepOk {r : List Char} (h : sepOk r) :
    headNot isDigit r := by
  cases r with
  | nil => trivial
  | cons c rr =>
    rcases h with h | h
    · exact (ws_char_props h).1
    · subst h; exact (by decide : isDigit ',' = false)

theorem sepOk_ne_dot {c : Char} {rr : List Char} (h : sepOk (c :: rr)) :
    c ≠ '.' := by
  rcases h with h | h
  · exact (ws_char_props h).2.2.1
  · subst h; decide

/-! ## Soundness and completeness of the number-token parsers -/
theorem parseNumIdx_sound {l : List Char} {t : NumTok} {r : List Char}
    (h : parseNumIdx l = some (t, r)) : l = t.flatten ++ r ∧ t.wf := by
  rcases hsp : splitSign l with ⟨ng, l1⟩
  have hsplit : l = (cond ng ['-'] []) ++ l1 := by
    have := splitSign_append l; rw [hsp] at this; exact this
  have hdec := (List.takeWhile_append_dropWhile (p := isDigit) (l := l1)).symm
  have hipd := mem_takeWhile_pred (p := isDigit) (l := l1)
  simp only [parseNumIdx, hsp, takeDigits, dropDigits] at h
  generalize hgd : List.takeWhile isDigit l1 = d at h hdec hipd
  generalize hgr : List.dropWhile isDigit l1 = rr at h hdec
  split at h
  · exact absurd h (by simp)
  next hcond =>
    push_neg at hcond
    obtain ⟨hne, hlen⟩ := hcond
    split at h
    next r2 =>
      have hfdec := (List.takeWhile_append_dropWhile (p := isDigit) (l := r2)).symm
      have hfd := mem_takeWhile_pred (p := isDigit) (l := r2)
      generalize hgf : List.takeWhile isDigit r2 = f at h hfdec hfd
      generalize hgfr : List.dropWhile isDigit r2 = fr at h hfdec
      split at h
      next hf =>
        simp only [Option.some.injEq, Prod.mk.injEq] at h
        obtain ⟨ht, hr⟩ := h
        subst ht; subst hr
        refine ⟨?_, hne, hlen, hipd, by intro c hc; simp at hc⟩
        rw [hsplit, hdec]
        simp [NumTok.flatten, List.append_assoc]
      next hf =>
        simp only [Option.some.injEq, Prod.mk.injEq] at h
        obtain ⟨ht, hr⟩ := h
        subst ht; subst hr
        refine ⟨?_, hne, hlen, hipd, hfd⟩
        rw [hsplit, hdec, hfdec]
        cases hfc : f with
        | nil => exact absurd hfc hf
        | cons fc fs =>
          subst hfc
          simp [NumTok.flatten, List.append_assoc]
    next r1 hnodot =>
      simp only [Option.some.injEq, Prod.mk.injEq] at h
      obtain ⟨ht, hr⟩ := h
      subst ht; subst hr
      refine ⟨?_, hne, hlen, hipd, by intro c hc; simp at hc⟩
      rw [hsplit, hdec]
      simp [NumTok.flatten, List.append_assoc]

theorem parseNumP0_sound {l : List Char} {t : NumTok} {r : List Char}
    (h : parseNumP0 l = some (t, r)) :
    l = t.flatten ++ r ∧ t.wf ∧ (t.neg = true → t.fp ≠ []) := by
  rcases hsp : splitSign l with ⟨ng, l1⟩
  have hsplit : l = (cond ng ['-'] []) ++ l1 := by
    have := splitSign_append l; rw [hsp] at this; exact this
  have hdec := (List.takeWhile_append_dropWhile (p := isDigit) (l := l1)).symm
  have hipd := mem_takeWhile_pred (p := isDigit) (l := l1)
  simp only [parseNumP0, hsp, takeDigits, dropDigits] at h
  generalize hgd : List.takeWhile isDigit l1 = d at h hdec hipd
  generalize hgr : List.dropWhile isDigit l1 = rr at h hdec
  split at h
  · exact absurd h (by simp)
  next hcond =>
    push_neg at hcond
    obtain ⟨hne, hlen⟩ := hcond
    split at h
    next r2 =>
      have hfdec := (List.takeWhile_append_dropWhile (p := isDigit) (l := r2)).symm
      have hfd := mem_takeWhile_pred (p := isDigit) (l := r2)
      generalize hgf : List.takeWhile isDigit r2 = f at h hfdec hfd
      generalize hgfr : List.dropWhile isDigit r2 = fr at h hfdec
      split at h
      next hf =>
        split at h
        · exact absurd h (by simp)
        next hng =>
          simp only [Option.some.injEq, Prod.mk.injEq] at h
          obtain ⟨ht, hr⟩ := h
          subst ht; subst hr
          have hng' : ng = false := by
            cases ng with
            | false => rfl
            | true => exact absurd rfl hng
          refine ⟨?_, ⟨hne, hlen, hipd, by intro c hc; simp at hc⟩,
            by intro hcon; simp at hcon⟩
          rw [hsplit, hdec, hng']
          simp [NumTok.flatten, List.append_assoc]
      next hf =>
        simp only [Option.some.injEq, Prod.mk.injEq] at h
        obtain ⟨ht, hr⟩ := h
        subst ht; subst hr
        refine ⟨?_, ⟨hne, hlen, hipd, hfd⟩, by intro _; simpa using hf⟩
        rw [hsplit, hdec, hfdec]
        cases hfc : f with
        | nil => exact absurd hfc hf
        | cons fc fs =>
          subst hfc
          simp [NumTok.flatten, List.append_assoc]
    next r1 hnodot =>
      split at h
      · exact absurd h (by simp)
      next hng =>
        simp only [Option.some.injEq, Prod.mk.injEq] at h
        obtain ⟨ht, hr⟩ := h
        subst ht; subst hr
        have hng' : ng = false := by
          cases ng with
          | false => rfl
          | true => exact absurd rfl hng
        refine ⟨?_, ⟨hne, hlen, hipd, by intro c hc; simp at hc⟩,
          by intro hcon; simp at hcon⟩
        rw [hsplit, hdec, hng']
        simp [NumTok.flatten, List.append_assoc]

/-! ### Completeness: a well-formed token followed by a legal separator is
parsed back exactly. -/
theorem flatten_decomp_frac {ng : Bool} {ip fp : List Char} (hfp : fp ≠ []) :
    NumTok.flatten ⟨ng, ip, fp⟩ = (cond ng ['-'] []) ++ ip ++ '.' :: fp := by
  cases fp with
  | nil => exact absurd rfl hfp
  | cons a b => simp [NumTok.flatten]

theorem flatten_decomp_nofrac {ng : Bool} {ip : List Char} :
    NumTok.flatten ⟨ng, ip, []⟩ = (cond ng ['-'] []) ++ ip := by
  simp [NumTok.flatten]

theorem splitSign_flatten {ng : Bool} {ip rest : List Char}
    (hip : ip ≠ []) (hipd : ∀ c ∈ ip, isDigit c = true) :
    splitSign ((cond ng ['-'] []) ++ (ip ++ rest)) = (ng, ip ++ rest) := by
  cases ng with
  | true => simp [splitSign]
  | false =>
    cases ip with
    | nil => exact absurd rfl hip
    | cons c cs =>
      have hc : isDigit c = true := hipd c (List.mem_cons_self c cs)
      have : c ≠ '-' := (digit_char_props hc).2.2.2
      simp [splitSign, this]

theorem parseNumIdx_complete {t : NumTok} {r : List Char}
    (hwf : t.wf) (hr : sepOk r) :
    parseNumIdx (t.flatten ++ r) = some (t, r) := by
  obtain ⟨ng, ip, fp⟩ := t
  obtain ⟨hip, hlen, hipd, hfpd⟩ := hwf
  simp only at hip hlen hipd hfpd
  cases fp with
  | nil =>
    have hno := headNot_digit_of_sepOk hr
    have hta := takeWhile_append_exact (p := isDigit) hipd hno
    rw [flatten_decomp_nofrac, List.append_assoc]
    simp only [parseNumIdx, splitSign_flatten hip hipd, takeDigits, dropDigits,
      hta.1, hta.2]
    rw [if_neg (by simp [hip, Nat.not_lt.mpr hlen])]
    cases r with
    | nil => rfl
    | cons c rr =>
      have hc := sepOk_ne_dot hr
      split
      next r2 heq =>
        injection heq with h1 _
        exact absurd h1 hc
      next => rfl
  | cons fc fs =>
    have hdotno : headNot isDigit ('.' :: (fc :: fs ++ r)) :=
      (by decide : isDigit '.' = false)
    have hta := takeWhile_append_exact (p := isDigit) hipd hdotno
    have hfno := headNot_digit_of_sepOk hr
    have hftb := takeWhile_append_exact (p := isDigit) hfpd hfno
    rw [flatten_decomp_frac (by simp), List.append_assoc, List.append_assoc,
      List.cons_append]
    simp only [parseNumIdx, splitSign_flatten hip hipd, takeDigits, dropDigits,
      hta.1, hta.2, hftb.1, hftb.2]
    rw [if_neg (by simp [hip, Nat.not_lt.mpr hlen])]
    rw [if_neg (by simp)]

theorem parseNumP0_complete {t : NumTok} {r : List Char}
    (hwf : t.wf) (hng : t.neg = true → t.fp ≠ []) (hr : sepOk r) :
    parseNumP0 (t.flatten ++ r) = some (t, r) := by
  obtain ⟨ng, ip, fp⟩ := t
  obtain ⟨hip, hlen, hipd, hfpd⟩ := hwf
  simp only at hip hlen hipd hfpd hng
  cases fp with
  | nil =>
    have hng' : ng = false := by
      cases ng with
      | false => rfl
      | true => exact absurd (hng rfl) (by simp)
    subst hng'
    have hno := headNot_digit_of_sepOk hr
    have hta := takeWhile_append_exact (p := isDigit) hipd hno
    rw [flatten_decomp_nofrac, List.append_assoc]
    simp only [parseNumP0, splitSign_flatten hip hipd, takeDigits, dropDigits,
      hta.1, hta.2]
    rw [if_neg (by simp [hip, Nat.not_lt.mpr hlen])]
    cases r with
    | nil => rfl
    | cons c rr =>
      have hc := sepOk_ne_dot hr
      split
      next r2 heq =>
        injection heq with h1 _
        exact absurd h1 hc
      next => rfl
  | cons fc fs =>
    have hdotno : headNot isDigit ('.' :: (fc :: fs ++ r)) :=
      (by decide : isDigit '.' = false)
    have hta := takeWhile_append_exact (p := isDigit) hipd hdotno
    have hfno := headNot_digit_of_sepOk hr
    have hftb := takeWhile_append_exact (p := isDigit) hfpd hfno
    rw [flatten_decomp_frac (by simp), List.append_assoc, List.append_assoc,
      List.cons_append]
    simp only [parseNumP0, splitSign_flatten hip hipd, takeDigits, dropDigits,
      hta.1, hta.2, hftb.1, hftb.2]
    rw [if_neg (by simp [hip, Nat.not_lt.mpr hlen])]
    rw [if_neg (by simp)]

/-! ## Equivalence of the coordinate parser with the grammar -/
theorem flatten_cons {t : NumTok} (hwf : t.wf) :
    ∃ c cs, t.flatten = c :: cs ∧ isWs c = false := by
  obtain ⟨ng, ip, fp⟩ := t
  obtain ⟨hip, -, hipd, -⟩ := hwf
  cases ng with
  | true =>
    refine ⟨'-', _, rfl, by decide⟩
  | false =>
    cases ip with
    | nil => exact absurd rfl hip
    | cons c cs =>
      have hc : isDigit c = true := hipd c (List.mem_cons_self c cs)
      cases fp with
      | nil =>
        refine ⟨c, cs, ?_, (digit_char_props hc).1⟩
        simp [NumTok.flatten]
      | cons f fs =>
        refine ⟨c, cs ++ '.' :: f :: fs, ?_, (digit_char_props hc).1⟩
        simp [NumTok.flatten]

theorem dropWhile_flatten_append {t : NumTok} (hwf : t.wf) (x : List Char) :
    (t.flatten ++ x).dropWhile isWs = t.flatten ++ x := by
  obtain ⟨c, cs, hfl, hcws⟩ := flatten_cons hwf
  rw [hfl]
  simp [List.dropWhile_cons, hcws]

theorem sepOk_ws_comma {w x : List Char} (hw : allWs w) :
    sepOk (w ++ ',' :: x) := by
  cases w with
  | nil => exact Or.inr rfl
  | cons c cs => exact Or.inl (hw c (List.mem_cons_self c cs))

theorem sepOk_allWs {w : List Char} (hw : allWs w) : sepOk w := by
  cases w with
  | nil => trivial
  | cons c cs => exact Or.inl (hw c (List.mem_cons_self c cs))

theorem runCoordParser_isSome_iff
    (pnum : List Char → Option (NumTok × List Char)) (P : NumTok → Prop)
    (hsound : ∀ l t r, pnum l = some (t, r) → l = t.flatten ++ r ∧ t.wf ∧ P t)
    (hcomp : ∀ t r, t.wf → P t → sepOk r → pnum (t.flatten ++ r) = some (t, r))
    (s : List Char) :
    (runCoordParser pnum s).isSome = true ↔ CoordGrammar P s := by
  constructor
  · intro h
    simp only [runCoordParser] at h
    split at h
    · simp at h
    next a r1 hp1 =>
      split at h
      swap
      · simp at h
      next r3 hcm =>
        split at h
        · simp at h
        next b r5 hp2 =>
          split at h
          swap
          · simp at h
          next hemp =>
            split at h
            · simp at h
            next hrange =>
              push_neg at hrange
              obtain ⟨hg1, hg2, hg3, hg4⟩ := hrange
              obtain ⟨ha1, hawf, haP⟩ := hsound _ _ _ hp1
              obtain ⟨hb1, hbwf, hbP⟩ := hsound _ _ _ hp2
              set w1 := (trimWs s).takeWhile isWs with hw1def
              set w2 := r1.takeWhile isWs with hw2def
              set w3 := r3.takeWhile isWs with hw3def
              have e1 : trimWs s = w1 ++ (a.flatten ++ r1) := by
                conv_lhs => rw [← List.takeWhile_append_dropWhile
                  (p := isWs) (l := trimWs s)]
                rw [ha1]
              have e2 : r1 = w2 ++ (',' :: r3) := by
                conv_lhs => rw [← List.takeWhile_append_dropWhile
                  (p := isWs) (l := r1)]
                rw [hcm]
              have e3 : r3 = w3 ++ (b.flatten ++ r5) := by
                conv_lhs => rw [← List.takeWhile_append_dropWhile
                  (p := isWs) (l := r3)]
                rw [hb1]
              have hr5 : allWs r5 := by
                have : r5.dropWhile isWs = [] := by
                  simpa [List.isEmpty_iff] using hemp
                exact dropWhile_nil_all this
              refine ⟨a, b, w1, w2, w3, r5, ?_, ?_, ?_, ?_, hr5,
                hawf, hbwf, haP, hbP, hg1, hg2, hg3, hg4⟩
              · rw [e1, e2, e3]; simp [List.append_assoc]
              · exact mem_takeWhile_pred
              · exact mem_takeWhile_pred
              · exact mem_takeWhile_pred
  · rintro ⟨a, b, w1, w2, w3, w4, heq, hw1, hw2, hw3, hw4, hawf, hbwf,
      haP, hbP, hg1, hg2, hg3, hg4⟩
    have heq' : trimWs s =
        w1 ++ (a.flatten ++ (w2 ++ (',' :: (w3 ++ (b.flatten ++ w4))))) := by
      rw [heq]; simp [List.append_assoc]
    have hcomma : ∀ x : List Char,
        List.dropWhile isWs (',' :: x) = ',' :: x := fun x =>
      dropWhile_eq_self_of_headNot (show isWs ',' = false by decide)
    simp only [runCoordParser, heq', dropWhile_append_all hw1,
      dropWhile_flatten_append hawf,
      hcomp a _ hawf haP (sepOk_ws_comma hw2), hcomma,
      dropWhile_append_all hw2, dropWhile_append_all hw3,
      dropWhile_flatten_append hbwf,
      hcomp b _ hbwf hbP (sepOk_allWs hw4),
      dropWhile_all_nil hw4, List.isEmpty_nil, if_true]
    rw [if_neg (by push_neg; exact ⟨hg1, hg2, hg3, hg4⟩)]
    rfl

theorem parseCoordinatesIdx_iff (s : String) :
    (parseCoordinatesIdx s).isSome = true ↔ CoordGrammar (fun _ => True) s.data :=
  runCoordParser_isSome_iff parseNumIdx (fun _ => True)
    (fun _ _ _ h => ⟨(parseNumIdx_sound h).1, (parseNumIdx_sound h).2, trivial⟩)
    (fun _ _ hwf _ hr => parseNumIdx_complete hwf hr)
    s.data

theorem parseCoordinatesP0_iff (s : String) :
    (parseCoordinatesP0 s).isSome = true ↔ CoordGrammar P0Tok s.data :=
  runCoordParser_isSome_iff parseNumP0 P0Tok
    (fun _ _ _ h => parseNumP0_sound h)
    (fun _ _ hwf hP hr => parseNumP0_complete hwf hP hr)
    s.data

/-- C1 (counterexample): the input `"-45,10"` satisfies the claim's grammar —
two comma-separated numbers, each optionally negative with 1–3 integer digits
and an optional fraction, with -45 ∈ [-90,90] and 10 ∈ [-180,180] — yet the
`part_000` variant of `parseCoordinates` returns none on it, because its
regex `(-?\d{1,3}\.\d+|\d{1,3})` only admits a minus sign together with a
mandatory decimal fraction.  Hence the claimed contract does not cover both
parser variants. -/
theorem val_intTok (ng : Bool) (ip : List Char) :
    NumTok.val ⟨ng, ip, []⟩ = (cond ng (-1) 1) * (digitsVal ip : Rat) := by
  simp [NumTok.val, digitsVal]

theorem C1_counterexample :
    CoordGrammar (fun _ => True) ("-45,10".data) ∧
      parseCoordinatesP0 "-45,10" = none := by
  constructor
  · refine ⟨⟨true, ['4', '5'], []⟩, ⟨false, ['1', '0'], []⟩, [], [], [], [],
      by decide, ?_, ?_, ?_, ?_, ?_, ?_, trivial, trivial, ?_, ?_, ?_, ?_⟩
    · intro c hc; simp at hc
    · intro c hc; simp at hc
    · intro c hc; simp at hc
    · intro c hc; simp at hc
    · exact ⟨by decide, by decide, by decide, by decide⟩
    · exact ⟨by decide, by decide, by decide, by decide⟩
    · have h : digitsVal ['4', '5'] = 45 := by decide
      simp only [val_intTok, h, Bool.cond_true]; norm_num
    · have h : digitsVal ['4', '5'] = 45 := by decide
      simp only [val_intTok, h, Bool.cond_true]; norm_num
    · have h : digitsVal ['1', '0'] = 10 := by decide
      simp only [val_intTok, h, Bool.cond_false]; norm_num
    · have h : digitsVal ['1', '0'] = 10 := by decide
      simp only [val_intTok, h, Bool.cond_false]; norm_num
  · decide

/-- C1 (amended): the `src/app/index.tsx` variant of `parseCoordinates`
returns a value exactly when the trimmed text matches two comma-separated
numbers — each with 1–3 integer digits, optionally negative, optionally
carrying a decimal fraction, with optional whitespace around the comma —
whose first value lies in [-90,90] and second in [-180,180]; the
`src/unnamed/part_000` variant satisfies the same contract restricted to
number tokens in which a minus sign only occurs together with a decimal
fraction. -/
theorem C1_theorem :
    (∀ s : String,
      (parseCoordinatesIdx s).isSome = true ↔
        CoordGrammar (fun _ => True) s.data) ∧
    (∀ s : String,
      (parseCoordinatesP0 s).isSome = true ↔ CoordGrammar P0Tok s.data) :=
  ⟨parseCoordinatesIdx_iff, parseCoordinatesP0_iff⟩

/-! ## Claim C2 -/
/-- C2: for every reply string, `parseStrictJson` returns a summary exactly
when the direct `JSON.parse` attempt yields an object with string `name` and
`description` fields, or — that attempt failing — the contents of the first
fenced code block do; when both attempts fail during the seed turn, `init`
stores the malformed-reply error ('Failed to parse location JSON') with no
further fallback.  The spec's three examples behave as stated: the plain
JSON object parses directly, the fenced variant parses via the fallback,
and `"Paris is nice"` yields the malformed-reply failure. -/
theorem C2_theorem :
    (∀ raw info, parseStrictJson raw = some info ↔
      (tryParseInfo raw = some info ∨
        (tryParseInfo raw = none ∧
          ∃ inner, fencedExtract raw = some inner ∧
            tryParseInfo inner = some info))) ∧
    (∀ cfg c env s text ev,
      chatCompletion cfg env.chat [systemMsg, coordMsg c] = (.ok text, ev) →
      parseStrictJson text = none →
      (init cfg (some c) env s).1.error = some .malformedReply) ∧
    parseStrictJson
        ("\x7b\"name\":\"Paris\",\"description\":\"The City of Light.\"\x7d".data) =
      some ⟨"Paris".data, "The City of Light.".data⟩ ∧
    parseStrictJson
        ("```json\n\x7b\"name\":\"Paris\",\"description\":\"x\"\x7d\n```".data) =
      some ⟨"Paris".data, "x".data⟩ ∧
    parseStrictJson ("Paris is nice".data) = none := by
  refine ⟨?_, ?_, by decide, by decide, by decide⟩
  · intro raw info
    unfold parseStrictJson
    cases htry : tryParseInfo raw with
    | some j => simp [htry]
    | none =>
      cases hfe : fencedExtract raw with
      | some inner => simp [hfe]
      | none => simp [hfe]
  · intro cfg c env s text ev hchat hparse
    simp only [init, hchat, hparse]

/-- C2 witness: a concrete seed turn whose chat reply `"Paris is nice"`
fails both parse attempts and surfaces the malformed-reply error. -/
theorem C2_witness :
    (init ⟨some ("k".data)⟩ (some ("48.8566, 2.3522".data))
        ⟨.ok (some ("Paris is nice".data)), .ok (), 7, .ok⟩
        initialScreenState).1.error = some .malformedReply :=
  C2_theorem.2.1 ⟨some ("k".data)⟩ ("48.8566, 2.3522".data)
    ⟨.ok (some ("Paris is nice".data)), .ok (), 7, .ok⟩
    initialScreenState ("Paris is nice".data)
    [.chatRequest [systemMsg, coordMsg ("48.8566, 2.3522".data)]]
    (by rfl) (by decide)

/-! ## Claim C10 -/
theorem fenceTag_shape {l r : List Char} (h : fenceTag l = some r) :
    ∃ tag, l = tag ++ '\n' :: r ∧
      (tag = [] ∨ tag.map Char.toLower = ['j', 's', 'o', 'n']) := by
  unfold fenceTag at h
  split at h
  next nl r1 =>
    split at h
    next hnl =>
      subst hnl
      simp only [Option.some.injEq] at h
      subst h
      exact ⟨[], rfl, Or.inl rfl⟩
    next hnl =>
      split at h
      next x o y nl2 r2 =>
        split at h
        next hcond =>
          obtain ⟨hj, hx, ho, hy, hnl2⟩ := hcond
          subst hnl2
          simp only [Option.some.injEq] at h
          subst h
          refine ⟨[nl, x, o, y], rfl, Or.inr ?_⟩
          simp [hj, hx, ho, hy]
        next => exact absurd h (by simp)
      next => exact absurd h (by simp)
  next => exact absurd h (by simp)

theorem fenceOpen_shape {l r : List Char} (h : fenceOpen l = some r) :
    ∃ tag, l = tickChar :: tickChar :: tickChar :: (tag ++ '\n' :: r) ∧
      (tag = [] ∨ tag.map Char.toLower = ['j', 's', 'o', 'n']) := by
  unfold fenceOpen at h
  split at h
  next a b c rest =>
    split at h
    next hticks =>
      obtain ⟨ha, hb, hc⟩ := hticks
      subst ha; subst hb; subst hc
      obtain ⟨tag, hshape, htag⟩ := fenceTag_shape h
      exact ⟨tag, by rw [hshape], htag⟩
    next => exact absurd h (by simp)
  next => exact absurd h (by simp)

theorem splitAtFence_shape :
    ∀ {l content post : List Char},
      splitAtFence l = some (content, post) →
      l = content ++ tickChar :: tickChar :: tickChar :: post := by
  intro l
  induction l with
  | nil => intro content post h; exact absurd h (by simp [splitAtFence])
  | cons a rest ih =>
    intro content post h
    cases rest with
    | nil => exact absurd h (by simp [splitAtFence])
    | cons b rest2 =>
      cases rest2 with
      | nil => exact absurd h (by simp [splitAtFence])
      | cons c r =>
        simp only [splitAtFence] at h
        split at h
        next hticks =>
          obtain ⟨ha, hb, hc⟩ := hticks
          simp only [Option.some.injEq, Prod.mk.injEq] at h
          obtain ⟨hco, hpo⟩ := h
          subst hco; subst hpo; subst ha; subst hb; subst hc
          rfl
        next =>
          cases hs : splitAtFence (b :: c :: r) with
          | none => rw [hs] at h; exact absurd h (by simp)
          | some p =>
            obtain ⟨p1, p2⟩ := p
            rw [hs] at h
            simp only [Option.map_some', Option.some.injEq,
              Prod.mk.injEq] at h
            obtain ⟨hco, hpo⟩ := h
            subst hco; subst hpo
            have hrec := ih hs
            rw [List.cons_append, ← hrec]

theorem fencedExtract_shape :
    ∀ {raw content : List Char},
      fencedExtract raw = some content →
      ∃ pre tag post,
        raw = pre ++ tickChar :: tickChar :: tickChar ::
          (tag ++ '\n' ::
            (content ++ tickChar :: tickChar :: tickChar :: post)) ∧
        (tag = [] ∨ tag.map Char.toLower = ['j', 's', 'o', 'n']) := by
  intro raw
  induction raw with
  | nil => intro content h; exact absurd h (by simp [fencedExtract])
  | cons a rest ih =>
    intro content h
    unfold fencedExtract at h
    split at h
    next afterOpen hopen =>
      split at h
      next cont after hsplit =>
        simp only [Option.some.injEq] at h
        subst h
        obtain ⟨tag, hshape, htag⟩ := fenceOpen_shape hopen
        have hsp := splitAtFence_shape hsplit
        exact ⟨[], tag, after, by rw [hshape, hsp]; rfl, htag⟩
      next hsplit =>
        obtain ⟨pre, tag, post, hshape, htag⟩ := ih h
        exact ⟨a :: pre, tag, post, by rw [List.cons_append, ← hshape], htag⟩
    next hopen =>
      obtain ⟨pre, tag, post, hshape, htag⟩ := ih h
      exact ⟨a :: pre, tag, post, by rw [List.cons_append, ← hshape], htag⟩

/-- C10: when the direct JSON parse fails, the fenced fallback of
`parseStrictJson` only matches replies in which a newline immediately
follows the opening fence (the three backticks and the optional
case-insensitive `json` tag); in particular the one-line fenced reply
`"```json {"name":"x","description":"y"}```"` — whose fenced contents are a
valid summary object — yields no value. -/
theorem C10_theorem :
    (∀ raw content, fencedExtract raw = some content →
      ∃ pre tag post,
        raw = pre ++ tickChar :: tickChar :: tickChar ::
          (tag ++ '\n' ::
            (content ++ tickChar :: tickChar :: tickChar :: post)) ∧
        (tag = [] ∨ tag.map Char.toLower = ['j', 's', 'o', 'n'])) ∧
    parseStrictJson
        ("```json \x7b\"name\":\"x\",\"description\":\"y\"\x7d```".data) =
      none :=
  ⟨fun _ _ h => fencedExtract_shape h, by decide⟩

/-- C10 witness: the fenced reply `"```json\nab```"` extracts content
`"ab"`, and the shape guaranteed by the theorem holds for it. -/
theorem C10_witness :
    ∃ pre tag post,
      ("```json\nab```".data) = pre ++ tickChar :: tickChar :: tickChar ::
        (tag ++ '\n' ::
          (("ab".data) ++ tickChar :: tickChar :: tickChar :: post)) ∧
      (tag = [] ∨ tag.map Char.toLower = ['j', 's', 'o', 'n']) :=
  C10_theorem.1 ("```json\nab```".data) ("ab".data) (by decide)

/-! ## Claim C3 -/
/-- C3 (counterexample): a seed turn in which the chat reply parses but the
speech synthesis call returns HTTP 500.  The turn fails (an error is
surfaced), yet `ConversationState` holds the three seeded turns, not the
single system turn the claim requires after any failure: `setMessages` runs
before `ttsToMp3`, and the catch block does not roll it back. -/
theorem C3_counterexample :
    ((init ⟨some ("k".data)⟩ (some ("48.8566, 2.3522".data))
        ⟨.ok (some
          ("\x7b\"name\":\"Paris\",\"description\":\"The City of Light.\"\x7d".data)),
          .err 500 [], 7, .ok⟩
        initialScreenState).1.messages.length = 3) ∧
    ((init ⟨some ("k".data)⟩ (some ("48.8566, 2.3522".data))
        ⟨.ok (some
          ("\x7b\"name\":\"Paris\",\"description\":\"The City of Light.\"\x7d".data)),
          .err 500 [], 7, .ok⟩
        initialScreenState).1.error ≠ none) := by
  constructor
  · decide
  · decide

/-- C3 (amended): a seed-turn failure always surfaces an error, but the
transcript rollback depends on where the failure happens.  If the chat call
fails, or the reply fails strict-JSON parsing, `ConversationState` still
holds exactly the single system turn.  If those steps succeed and the turn
fails later (synthesis or playback), the three seeded turns remain in
`ConversationState` — seeding is not rolled back.  The error field is `none`
after the attempt exactly when synthesis and playback both succeeded. -/
theorem C3_theorem :
    (∀ cfg c env e ev,
      chatCompletion cfg env.chat [systemMsg, coordMsg c] = (.error e, ev) →
      (init cfg (some c) env initialScreenState).1.messages = [systemMsg] ∧
      (init cfg (some c) env initialScreenState).1.error = some e) ∧
    (∀ cfg c env text ev,
      chatCompletion cfg env.chat [systemMsg, coordMsg c] = (.ok text, ev) →
      parseStrictJson text = none →
      (init cfg (some c) env initialScreenState).1.messages = [systemMsg] ∧
      (init cfg (some c) env initialScreenState).1.error =
        some .malformedReply) ∧
    (∀ cfg c env text ev info,
      chatCompletion cfg env.chat [systemMsg, coordMsg c] = (.ok text, ev) →
      parseStrictJson text = some info →
      (init cfg (some c) env initialScreenState).1.messages =
        [systemMsg, coordMsg c, ⟨.assistant, info.description⟩] ∧
      ((init cfg (some c) env initialScreenState).1.error = none ↔
        env.tts = .ok () ∧ env.play = .ok)) := by
  refine ⟨?_, ?_, ?_⟩
  · intro cfg c env e ev hchat
    simp [init, hchat, initialScreenState]
  · intro cfg c env text ev hchat hparse
    simp [init, hchat, hparse, initialScreenState]
  · intro cfg c env text ev info hchat hparse
    have hkey : cfg.openaiApiKey ≠ none := by
      intro hk
      rcases cfg with ⟨key⟩
      simp only at hk
      subst hk
      simp [chatCompletion] at hchat
    rcases hk : cfg.openaiApiKey with - | key
    · exact absurd hk hkey
    constructor
    · simp only [init, hchat, hparse]
      cases htts : env.tts with
      | err st b => simp [ttsToMp3, hk]
      | ok u =>
        cases hplay : env.play with
        | failure => simp [ttsToMp3, hk, playMp3, stopAndUnloadSound]
        | ok => simp [ttsToMp3, hk, playMp3, stopAndUnloadSound]
    · simp only [init, hchat, hparse]
      cases htts : env.tts with
      | err st b =>
        simp [ttsToMp3, hk]
      | ok u =>
        cases hplay : env.play with
        | failure =>
          simp [ttsToMp3, hk, playMp3, stopAndUnloadSound]
        | ok =>
          simp [ttsToMp3, hk, playMp3, stopAndUnloadSound]

/-- C3 witness: with the credential absent the chat call fails with the
missing-credential error before any request, and the state keeps exactly
the system turn with the error surfaced. -/
theorem C3_witness :
    (init ⟨none⟩ (some ("48.8566, 2.3522".data))
        ⟨.ok (some ("x".data)), .ok (), 7, .ok⟩
        initialScreenState).1.messages = [systemMsg] ∧
    (init ⟨none⟩ (some ("48.8566, 2.3522".data))
        ⟨.ok (some ("x".data)), .ok (), 7, .ok⟩
        initialScreenState).1.error = some .missingCredential :=
  C3_theorem.1 ⟨none⟩ ("48.8566, 2.3522".data)
    ⟨.ok (some ("x".data)), .ok (), 7, .ok⟩ .missingCredential [] (by rfl)

/-! ## Claim C4 -/
/-- C4: when the seed turn succeeds — the chat reply parses to `info` and
synthesis and playback succeed — the title is `info.name`,
`ConversationState` holds exactly the three turns system, user
`"Coordinates: ..."`, assistant `info.description` (the name is not
retained), no error is surfaced, and the synthesis request carries the
description text. -/
theorem C4_theorem :
    ∀ cfg c env text ev info,
      chatCompletion cfg env.chat [systemMsg, coordMsg c] = (.ok text, ev) →
      parseStrictJson text = some info →
      env.tts = .ok () →
      env.play = .ok →
      (init cfg (some c) env initialScreenState).1.title = info.name ∧
      (init cfg (some c) env initialScreenState).1.messages =
        [systemMsg, coordMsg c, ⟨.assistant, info.description⟩] ∧
      (init cfg (some c) env initialScreenState).1.error = none ∧
      (Event.ttsRequest info.description ("nova".data)) ∈
        (init cfg (some c) env initialScreenState).2 := by
  intro cfg c env text ev info hchat hparse htts hplay
  have hkey : cfg.openaiApiKey ≠ none := by
    intro hk
    rcases cfg with ⟨key⟩
    simp only at hk
    subst hk
    simp [chatCompletion] at hchat
  rcases hk : cfg.openaiApiKey with - | key
  · exact absurd hk hkey
  refine ⟨?_, ?_, ?_, ?_⟩ <;>
    simp [init, hchat, hparse, htts, hplay, ttsToMp3, hk, playMp3,
      stopAndUnloadSound]

/-- C4 witness: the end-to-end example of the spec, with the chat reply
`{"name":"Paris","description":"The City of Light."}`. -/
theorem C4_witness :
    (init ⟨some ("k".data)⟩ (some ("48.8566, 2.3522".data))
        ⟨.ok (some
          ("\x7b\"name\":\"Paris\",\"description\":\"The City of Light.\"\x7d".data)),
          .ok (), 7, .ok⟩
        initialScreenState).1.title = ("Paris".data) ∧
    (init ⟨some ("k".data)⟩ (some ("48.8566, 2.3522".data))
        ⟨.ok (some
          ("\x7b\"name\":\"Paris\",\"description\":\"The City of Light.\"\x7d".data)),
          .ok (), 7, .ok⟩
        initialScreenState).1.messages =
      [systemMsg, coordMsg ("48.8566, 2.3522".data),
        ⟨.assistant, ("The City of Light.".data)⟩] ∧
    (init ⟨some ("k".data)⟩ (some ("48.8566, 2.3522".data))
        ⟨.ok (some
          ("\x7b\"name\":\"Paris\",\"description\":\"The City of Light.\"\x7d".data)),
          .ok (), 7, .ok⟩
        initialScreenState).1.error = none ∧
    (Event.ttsRequest ("The City of Light.".data) ("nova".data)) ∈
      (init ⟨some ("k".data)⟩ (some ("48.8566, 2.3522".data))
        ⟨.ok (some
          ("\x7b\"name\":\"Paris\",\"description\":\"The City of Light.\"\x7d".data)),
          .ok (), 7, .ok⟩
        initialScreenState).2 :=
  C4_theorem ⟨some ("k".data)⟩ ("48.8566, 2.3522".data)
    ⟨.ok (some
      ("\x7b\"name\":\"Paris\",\"description\":\"The City of Light.\"\x7d".data)),
      .ok (), 7, .ok⟩
    ("\x7b\"name\":\"Paris\",\"description\":\"The City of Light.\"\x7d".data)
    [.chatRequest [systemMsg, coordMsg ("48.8566, 2.3522".data)]]
    ⟨"Paris".data, "The City of Light.".data⟩
    (by rfl) (by decide) rfl rfl

/-! ## Claim C5 -/
theorem transcribeAudio_ok_key {cfg : Config} {fs : List Char → Bool}
    {o : HttpOutcome (Option (List Char))} {uri t : List Char}
    {ev : List Event}
    (h : transcribeAudio cfg fs o uri = (.ok t, ev)) :
    ∃ k, cfg.openaiApiKey = some k := by
  rcases hk : cfg.openaiApiKey with - | k
  · unfold transcribeAudio at h
    split at h
    · simp at h
    · rw [hk] at h
      simp at h
  · exact ⟨k, rfl⟩

theorem chatCompletion_events {cfg : Config} {k : List Char}
    (hk : cfg.openaiApiKey = some k)
    (o : HttpOutcome (Option (List Char))) (msgs : List ChatMessage) :
    (chatCompletion cfg o msgs).2 = [.chatRequest msgs] := by
  unfold chatCompletion
  rw [hk]
  cases o with
  | err st b => rfl
  | ok a =>
    cases a with
    | none => rfl
    | some t =>
      by_cases ht : trimWs t = []
      · simp [ht]
      · simp [ht]

/-- C5: in every follow-up voice cycle the user turn carrying the
transcription result is committed (its `setMessages` event precedes the
chat request in the trace); any failure aborts silently — the error field is
never touched by `toggleTalk` — and every append completed before the
failure point remains: a transcription failure leaves the transcript
unchanged, a chat failure leaves the appended user turn in place, and once
the chat reply is appended, synthesis/playback failures change nothing. -/
theorem C5_theorem :
    (∀ cfg env s, (toggleTalk cfg env s).1.error = s.error) ∧
    (∀ cfg env s uri t ev,
      s.loading = false → s.chatLoading = false → s.isTalking = true →
      env.stopUri = some uri →
      transcribeAudio cfg env.fs env.stt uri = (.ok t, ev) →
      ∃ rest, (toggleTalk cfg env s).2 =
        ev ++ .setMessagesEvent (s.messages ++ [⟨.user, t⟩]) ::
          .chatRequest (s.messages ++ [⟨.user, t⟩]) :: rest) ∧
    (∀ cfg env s uri e ev,
      s.loading = false → s.chatLoading = false → s.isTalking = true →
      env.stopUri = some uri →
      transcribeAudio cfg env.fs env.stt uri = (.error e, ev) →
      (toggleTalk cfg env s).1.messages = s.messages) ∧
    (∀ cfg env s uri t ev e2 ev2,
      s.loading = false → s.chatLoading = false → s.isTalking = true →
      env.stopUri = some uri →
      transcribeAudio cfg env.fs env.stt uri = (.ok t, ev) →
      chatCompletion cfg env.chat (s.messages ++ [⟨.user, t⟩]) =
        (.error e2, ev2) →
      (toggleTalk cfg env s).1.messages = s.messages ++ [⟨.user, t⟩]) ∧
    (∀ cfg env s uri t ev a ev2,
      s.loading = false → s.chatLoading = false → s.isTalking = true →
      env.stopUri = some uri →
      transcribeAudio cfg env.fs env.stt uri = (.ok t, ev) →
      chatCompletion cfg env.chat (s.messages ++ [⟨.user, t⟩]) =
        (.ok a, ev2) →
      (toggleTalk cfg env s).1.messages =
        s.messages ++ [⟨.user, t⟩, ⟨.assistant, a⟩]) := by
  refine ⟨?_, ?_, ?_, ?_, ?_⟩
  · intro cfg env s
    unfold toggleTalk
    split
    · rfl
    split
    · split <;> rfl
    split
    · rfl
    next uri hsome =>
      rcases htr : transcribeAudio cfg env.fs env.stt uri with ⟨res, evA⟩
      cases res with
      | error e => simp [htr]
      | ok t =>
        rcases hc : chatCompletion cfg env.chat
          (s.messages ++ [⟨.user, t⟩]) with ⟨res2, evC⟩
        cases res2 with
        | error e2 => simp [htr, hc]
        | ok a =>
          rcases htts : ttsToMp3 cfg env.tts env.ts a ("nova".data) with
            ⟨res3, evE⟩
          cases res3 with
          | error e3 => simp [htr, hc, htts]
          | ok path =>
            rcases hp : playMp3 s.sound s.nextHandle env.play path with
              ⟨res4, snd, nh, evF⟩
            simp [htr, hc, htts, hp]
  · intro cfg env s uri t ev hld hcl htk huri htr
    obtain ⟨k, hk⟩ := transcribeAudio_ok_key htr
    simp only [toggleTalk, hld, hcl, htk, huri, Bool.or_self, Bool.not_true,
      Bool.false_eq_true, if_false, htr]
    rcases hc : chatCompletion cfg env.chat (s.messages ++ [⟨.user, t⟩])
      with ⟨res2, evC⟩
    have hevC : evC = [.chatRequest (s.messages ++ [⟨.user, t⟩])] := by
      have := chatCompletion_events hk env.chat (s.messages ++ [⟨.user, t⟩])
      rw [hc] at this
      exact this
    subst hevC
    cases res2 with
    | error e2 =>
      refine ⟨[.deleteFile uri true], ?_⟩
      simp [hc]
    | ok a =>
      rcases htts : ttsToMp3 cfg env.tts env.ts a ("nova".data) with
        ⟨res3, evE⟩
      cases res3 with
      | error e3 =>
        refine ⟨.setMessagesEvent (s.messages ++ [⟨.user, t⟩, ⟨.assistant, a⟩])
          :: evE ++ [.deleteFile uri true], ?_⟩
        simp [hc, htts]
      | ok path =>
        rcases hp : playMp3 s.sound s.nextHandle env.play path with
          ⟨res4, snd, nh, evF⟩
        refine ⟨.setMessagesEvent (s.messages ++ [⟨.user, t⟩, ⟨.assistant, a⟩])
          :: evE ++ evF ++ [.deleteFile uri true], ?_⟩
        simp [hc, htts, hp]
  · intro cfg env s uri e ev hld hcl htk huri htr
    simp [toggleTalk, hld, hcl, htk, huri, htr]
  · intro cfg env s uri t ev e2 ev2 hld hcl htk huri htr hc
    simp [toggleTalk, hld, hcl, htk, huri, htr, hc]
  · intro cfg env s uri t ev a ev2 hld hcl htk huri htr hc
    simp only [toggleTalk, hld, hcl, htk, huri, Bool.or_self, Bool.not_true,
      Bool.false_eq_true, if_false, htr, hc]
    rcases htts : ttsToMp3 cfg env.tts env.ts a ("nova".data) with ⟨res3, evE⟩
    cases res3 with
    | error e3 => simp [htts]
    | ok path =>
      rcases hp : playMp3 s.sound s.nextHandle env.play path with
        ⟨res4, snd, nh, evF⟩
      simp [htts, hp]

/-- C5 witness: a concrete successful follow-up cycle that appends the
transcribed user turn and the assistant reply to the transcript. -/
theorem C5_witness :
    (toggleTalk ⟨some ("k".data)⟩
        ⟨true, some ("file:///rec.m4a".data), fun _ => true,
          .ok (some ("Hello".data)), .ok (some ("Hi".data)), .ok (), 8, .ok,
          true⟩
        { initialScreenState with loading := false, isTalking := true }).1.messages =
      { initialScreenState with
          loading := false, isTalking := true }.messages ++
        [⟨.user, ("Hello".data)⟩, ⟨.assistant, ("Hi".data)⟩] :=
  C5_theorem.2.2.2.2 ⟨some ("k".data)⟩
    ⟨true, some ("file:///rec.m4a".data), fun _ => true,
      .ok (some ("Hello".data)), .ok (some ("Hi".data)), .ok (), 8, .ok, true⟩
    { initialScreenState with loading := false, isTalking := true }
    ("file:///rec.m4a".data) ("Hello".data)
    [.sttRequest ("file:///rec.m4a".data)] ("Hi".data)
    [.chatRequest ({ initialScreenState with
      loading := false, isTalking := true }.messages ++
        [⟨.user, ("Hello".data)⟩])]
    rfl rfl rfl rfl (by rfl) (by rfl)

theorem init_seeded {cfg : Config} {c text : List Char} {env : InitEnv}
    {ev : List Event} {info : LocationInfo}
    (hchat : chatCompletion cfg env.chat [systemMsg, coordMsg c] =
      (.ok text, ev))
    (hparse : parseStrictJson text = some info) :
    (init cfg (some c) env initialScreenState).1.messages =
      [systemMsg, coordMsg c, ⟨.assistant, info.description⟩] ∧
    (init cfg (some c) env initialScreenState).1.loading = false ∧
    (init cfg (some c) env initialScreenState).1.chatLoading = false ∧
    (init cfg (some c) env initialScreenState).1.isTalking = false := by
  have hkey : ∃ k, cfg.openaiApiKey = some k := by
    rcases hk : cfg.openaiApiKey with - | k
    · rcases cfg with ⟨key⟩
      simp only at hk
      subst hk
      simp [chatCompletion] at hchat
    · exact ⟨k, rfl⟩
  obtain ⟨k, hk⟩ := hkey
  simp only [init, hchat, hparse]
  cases htts : env.tts with
  | err st b => simp [ttsToMp3, hk, initialScreenState]
  | ok u =>
    cases hplay : env.play with
    | failure =>
      simp [ttsToMp3, hk, playMp3, stopAndUnloadSound, initialScreenState]
    | ok =>
      simp [ttsToMp3, hk, playMp3, stopAndUnloadSound, initialScreenState]

theorem voiceCycle_success {cfg : Config} {env : TalkEnv} {s : ScreenState}
    (hcs : CycleSuccess cfg env)
    (hld : s.loading = false) (hcl : s.chatLoading = false)
    (htk : s.isTalking = false) :
    ∃ t a,
      (voiceCycle cfg env s).messages =
        s.messages ++ [⟨.user, t⟩, ⟨.assistant, a⟩] ∧
      (voiceCycle cfg env s).loading = false ∧
      (voiceCycle cfg env s).chatLoading = false ∧
      (voiceCycle cfg env s).isTalking = false := by
  obtain ⟨hrec, ⟨u, hu, hfs⟩, ⟨k, hk⟩, ⟨t0, hstt, htne⟩, ⟨a0, hchat, hane⟩,
    htts, hplay⟩ := hcs
  refine ⟨trimWs t0, trimWs a0, ?_⟩
  have h1 : (toggleTalk cfg env s).1 =
      { s with isTalking := true, recording := true } := by
    simp [toggleTalk, hld, hcl, htk, hrec]
  unfold voiceCycle
  rw [h1]
  simp [toggleTalk, hld, hcl, hu, transcribeAudio, hfs, hk, hstt, htne,
    chatCompletion, hchat, hane, ttsToMp3, htts, playMp3, hplay,
    stopAndUnloadSound]

theorem runCycles_growth {cfg : Config} :
    ∀ (envs : List TalkEnv) (s : ScreenState),
      (∀ e ∈ envs, CycleSuccess cfg e) →
      s.loading = false → s.chatLoading = false → s.isTalking = false →
      (runCycles cfg envs s).messages.length =
        s.messages.length + 2 * envs.length := by
  intro envs
  induction envs with
  | nil => intro s _ _ _ _; simp [runCycles]
  | cons e es ih =>
    intro s hall hld hcl htk
    obtain ⟨t, a, hmsg, hld2, hcl2, htk2⟩ :=
      voiceCycle_success (hall e (List.mem_cons_self e es)) hld hcl htk
    have hrun : runCycles cfg (e :: es) s =
        runCycles cfg es (voiceCycle cfg e s) := rfl
    rw [hrun, ih (voiceCycle cfg e s)
      (fun x hx => hall x (List.mem_cons_of_mem e hx)) hld2 hcl2 htk2, hmsg]
    simp [List.length_append]
    ring

/-- C6: the transcript only grows.  A successful seed turn brings
`ConversationState` from the single system turn to exactly three turns;
every `init` run from the initial state and every `toggleTalk` transition
keeps the previous message sequence as a prefix (no reordering,
deduplication or mutation); and a successful seed turn followed by N
successful voice cycles yields exactly 1 + 2 + 2N turns. -/
theorem C6_theorem :
    (∀ cfg c env text ev info,
      chatCompletion cfg env.chat [systemMsg, coordMsg c] = (.ok text, ev) →
      parseStrictJson text = some info →
      (init cfg (some c) env initialScreenState).1.messages.length = 3) ∧
    (∀ cfg c env,
      initialScreenState.messages <+:
        (init cfg (some c) env initialScreenState).1.messages) ∧
    (∀ cfg env s, s.messages <+: (toggleTalk cfg env s).1.messages) ∧
    (∀ cfg c ienv text ev info envs,
      chatCompletion cfg ienv.chat [systemMsg, coordMsg c] = (.ok text, ev) →
      parseStrictJson text = some info →
      (∀ e ∈ envs, CycleSuccess cfg e) →
      (runCycles cfg envs
          (init cfg (some c) ienv initialScreenState).1).messages.length =
        1 + 2 + 2 * envs.length) := by
  refine ⟨?_, ?_, ?_, ?_⟩
  · intro cfg c env text ev info hchat hparse
    rw [(init_seeded hchat hparse).1]
    rfl
  · intro cfg c env
    rcases hchat : chatCompletion cfg env.chat [systemMsg, coordMsg c] with
      ⟨res, ev⟩
    cases res with
    | error e =>
      have : (init cfg (some c) env initialScreenState).1.messages =
          initialScreenState.messages := by
        simp [init, hchat, initialScreenState]
      rw [this]
    | ok text =>
      cases hparse : parseStrictJson text with
      | none =>
        have : (init cfg (some c) env initialScreenState).1.messages =
            initialScreenState.messages := by
          simp [init, hchat, hparse, initialScreenState]
        rw [this]
      | some info =>
        rw [(init_seeded hchat hparse).1]
        exact ⟨[coordMsg c, ⟨.assistant, info.description⟩], rfl⟩
  · intro cfg env s
    unfold toggleTalk
    split
    · exact List.prefix_rfl
    split
    · split <;> exact List.prefix_rfl
    split
    · exact List.prefix_rfl
    next uri hsome =>
      rcases htr : transcribeAudio cfg env.fs env.stt uri with ⟨res, evA⟩
      cases res with
      | error e => simp [htr]
      | ok t =>
        rcases hc : chatCompletion cfg env.chat
          (s.messages ++ [⟨.user, t⟩]) with ⟨res2, evC⟩
        cases res2 with
        | error e2 => simp [htr, hc]
        | ok a =>
          rcases htts : ttsToMp3 cfg env.tts env.ts a ("nova".data) with
            ⟨res3, evE⟩
          cases res3 with
          | error e3 => simp [htr, hc, htts]
          | ok path =>
            rcases hp : playMp3 s.sound s.nextHandle env.play path with
              ⟨res4, snd, nh, evF⟩
            simp [htr, hc, htts, hp]
  · intro cfg c ienv text ev info envs hchat hparse hall
    obtain ⟨hmsg, hld, hcl, htk⟩ := init_seeded hchat hparse
    rw [runCycles_growth envs _ hall hld hcl htk, hmsg]
    rfl

/-- C6 witness: a successful seed turn followed by one successful voice
cycle leaves 1 + 2 + 2·1 = 5 turns. -/
theorem C6_witness :
    (runCycles ⟨some ("k".data)⟩
        [⟨true, some ("file:///rec.m4a".data), fun _ => true,
          .ok (some ("Hello".data)), .ok (some ("Hi".data)), .ok (), 8, .ok,
          true⟩]
        (init ⟨some ("k".data)⟩ (some ("48.8566, 2.3522".data))
          ⟨.ok (some
            ("\x7b\"name\":\"Paris\",\"description\":\"The City of Light.\"\x7d".data)),
            .ok (), 7, .ok⟩
          initialScreenState).1).messages.length = 1 + 2 + 2 * 1 :=
  C6_theorem.2.2.2 ⟨some ("k".data)⟩ ("48.8566, 2.3522".data)
    ⟨.ok (some
      ("\x7b\"name\":\"Paris\",\"description\":\"The City of Light.\"\x7d".data)),
      .ok (), 7, .ok⟩
    ("\x7b\"name\":\"Paris\",\"description\":\"The City of Light.\"\x7d".data)
    [.chatRequest [systemMsg, coordMsg ("48.8566, 2.3522".data)]]
    ⟨"Paris".data, "The City of Light.".data⟩
    [⟨true, some ("file:///rec.m4a".data), fun _ => true,
      .ok (some ("Hello".data)), .ok (some ("Hi".data)), .ok (), 8, .ok,
      true⟩]
    (by rfl) (by decide)
    (by
      intro e he
      rw [List.mem_singleton] at he
      subst he
      exact ⟨rfl, ⟨("file:///rec.m4a".data), rfl, rfl⟩, ⟨"k".data, rfl⟩,
        ⟨"Hello".data, rfl, by decide⟩, ⟨"Hi".data, rfl, by decide⟩, rfl, rfl⟩)

/-! ## Claim C7 -/
/-- C7: for every follow-up cycle that obtained a recording-file path, the
trace ends with the deletion of that file, carried out with
`idempotent: true` (absence is not an error), regardless of which provider
step failed; the outcome of the deletion is never read (the whole call is
try/catch-swallowed), so the resulting state and trace do not depend on it;
and no error is surfaced. -/
theorem C7_theorem :
    ∀ cfg env s uri,
      s.loading = false → s.chatLoading = false → s.isTalking = true →
      env.stopUri = some uri →
      (∃ pre, (toggleTalk cfg env s).2 = pre ++ [.deleteFile uri true]) ∧
      (∀ b, toggleTalk cfg { env with deleteOk := b } s =
        toggleTalk cfg env s) ∧
      (toggleTalk cfg env s).1.error = s.error := by
  intro cfg env s uri hld hcl htk huri
  refine ⟨?_, ?_, C5_theorem.1 cfg env s⟩
  · simp only [toggleTalk, hld, hcl, htk, huri, Bool.or_self, Bool.not_true,
      Bool.false_eq_true, if_false]
    rcases htr : transcribeAudio cfg env.fs env.stt uri with ⟨res, evA⟩
    cases res with
    | error e => exact ⟨evA, by simp [htr]⟩
    | ok t =>
      rcases hc : chatCompletion cfg env.chat
        (s.messages ++ [⟨.user, t⟩]) with ⟨res2, evC⟩
      cases res2 with
      | error e2 =>
        refine ⟨evA ++ .setMessagesEvent (s.messages ++ [⟨.user, t⟩]) :: evC,
          by simp [htr, hc]⟩
      | ok a =>
        rcases htts : ttsToMp3 cfg env.tts env.ts a ("nova".data) with
          ⟨res3, evE⟩
        cases res3 with
        | error e3 =>
          refine ⟨evA ++ .setMessagesEvent (s.messages ++ [⟨.user, t⟩]) ::
            (evC ++ .setMessagesEvent
              (s.messages ++ [⟨.user, t⟩, ⟨.assistant, a⟩]) :: evE),
            by simp [htr, hc, htts]⟩
        | ok path =>
          rcases hp : playMp3 s.sound s.nextHandle env.play path with
            ⟨res4, snd, nh, evF⟩
          refine ⟨evA ++ .setMessagesEvent (s.messages ++ [⟨.user, t⟩]) ::
            (evC ++ .setMessagesEvent
              (s.messages ++ [⟨.user, t⟩, ⟨.assistant, a⟩]) ::
                (evE ++ evF)), by simp [htr, hc, htts, hp]⟩
  · intro b
    cases env
    rfl

/-- C7 witness: in a cycle whose chat call fails with HTTP 500, the trace
still ends with the idempotent deletion of the recording file, and no error
is surfaced. -/
theorem C7_witness :
    (∃ pre, (toggleTalk ⟨some ("k".data)⟩
        ⟨true, some ("file:///rec.m4a".data), fun _ => true,
          .ok (some ("Hello".data)), .err 500 [], .ok (), 8, .ok, true⟩
        { initialScreenState with loading := false, isTalking := true }).2 =
      pre ++ [.deleteFile ("file:///rec.m4a".data) true]) ∧
    (∀ b, toggleTalk ⟨some ("k".data)⟩
        { (⟨true, some ("file:///rec.m4a".data), fun _ => true,
          .ok (some ("Hello".data)), .err 500 [], .ok (), 8, .ok, true⟩ :
            TalkEnv) with deleteOk := b }
        { initialScreenState with loading := false, isTalking := true } =
      toggleTalk ⟨some ("k".data)⟩
        ⟨true, some ("file:///rec.m4a".data), fun _ => true,
          .ok (some ("Hello".data)), .err 500 [], .ok (), 8, .ok, true⟩
        { initialScreenState with loading := false, isTalking := true }) ∧
    (toggleTalk ⟨some ("k".data)⟩
        ⟨true, some ("file:///rec.m4a".data), fun _ => true,
          .ok (some ("Hello".data)), .err 500 [], .ok (), 8, .ok, true⟩
        { initialScreenState with loading := false, isTalking := true }).1.error =
      { initialScreenState with loading := false, isTalking := true }.error :=
  C7_theorem ⟨some ("k".data)⟩
    ⟨true, some ("file:///rec.m4a".data), fun _ => true,
      .ok (some ("Hello".data)), .err 500 [], .ok (), 8, .ok, true⟩
    { initialScreenState with loading := false, isTalking := true }
    ("file:///rec.m4a".data) rfl rfl rfl rfl

/-! ## Claim C8 -/
theorem allPrefixesBounded_append {e1 e2 : List Event} :
    ∀ {acc : List Nat}, allPrefixesBounded e1 acc →
      allPrefixesBounded e2 (activeHandles e1 acc) →
      allPrefixesBounded (e1 ++ e2) acc := by
  induction e1 with
  | nil => intro acc h1 h2; exact h2
  | cons e es ih =>
    intro acc h1 h2
    obtain ⟨hlen, hrest⟩ := h1
    exact ⟨hlen, ih hrest h2⟩

theorem playMp3_bounded (snd : Option Nat) (fresh : Nat) (o : PlayOutcome)
    (uri : List Char) :
    allPrefixesBounded (playMp3 snd fresh o uri).2.2.2 (handlesOf snd) ∧
    activeHandles (playMp3 snd fresh o uri).2.2.2 (handlesOf snd) =
      handlesOf (playMp3 snd fresh o uri).2.1 := by
  cases snd <;> cases o <;> refine ⟨?_, ?_⟩ <;>
    simp [playMp3, stopAndUnloadSound, allPrefixesBounded, activeHandles,
      stepActive, handlesOf]

theorem runPlaysMp3_bounded :
    ∀ (plays : List (PlayOutcome × List Char)) (snd : Option Nat)
      (fresh : Nat),
      allPrefixesBounded (runPlaysMp3 plays snd fresh).2 (handlesOf snd) := by
  intro plays
  induction plays with
  | nil =>
    intro snd fresh
    cases snd <;> simp [runPlaysMp3, allPrefixesBounded, handlesOf]
  | cons p ps ih =>
    intro snd fresh
    rcases p with ⟨o, uri⟩
    have hb := playMp3_bounded snd fresh o uri
    rcases hp : playMp3 snd fresh o uri with ⟨res, snd2, f2, ev⟩
    rw [hp] at hb
    simp only at hb
    have hstep : runPlaysMp3 ((o, uri) :: ps) snd fresh =
        ((runPlaysMp3 ps snd2 f2).1, ev ++ (runPlaysMp3 ps snd2 f2).2) := by
      simp [runPlaysMp3, hp]
    rw [hstep]
    exact allPrefixesBounded_append hb.1 (hb.2 ▸ ih snd2 f2)

/-- C8: `playMp3` (location screen) and `playAudio` (part_000) behave
identically; each stops and releases the currently playing handle before
creating the new one (a no-op when none is active, and no handle is created
when the platform call fails); over any sequence of play calls at most one
handle is active after every prefix of the event trace; and two plays in
succession from idle produce create–stop–release–create, the first handle
fully released before the second is created. -/
theorem C8_theorem :
    (∀ snd fresh o uri,
      playAudio snd fresh o uri = playMp3 snd fresh o uri) ∧
    (∀ h fresh uri, playMp3 (some h) fresh .ok uri =
      (.ok (), some fresh, fresh + 1,
        [.soundStop h, .soundUnload h, .soundCreate fresh uri])) ∧
    (∀ h fresh uri, playMp3 (some h) fresh .failure uri =
      (.error .audioFailure, none, fresh, [.soundStop h, .soundUnload h])) ∧
    (∀ fresh uri, playMp3 none fresh .ok uri =
      (.ok (), some fresh, fresh + 1, [.soundCreate fresh uri])) ∧
    (∀ plays snd fresh,
      allPrefixesBounded (runPlaysMp3 plays snd fresh).2 (handlesOf snd)) ∧
    (∀ u1 u2, (runPlaysMp3 [(.ok, u1), (.ok, u2)] none 0).2 =
      [.soundCreate 0 u1, .soundStop 0, .soundUnload 0,
        .soundCreate 1 u2]) := by
  refine ⟨?_, ?_, ?_, ?_, runPlaysMp3_bounded, ?_⟩
  · intro snd fresh o uri
    cases snd <;> cases o <;> rfl
  · intro h fresh uri; rfl
  · intro h fresh uri; rfl
  · intro fresh uri; rfl
  · intro u1 u2; rfl

/-- C8 witness: the two-play trace on concrete file names, with the bounded
invariant at a concrete state. -/
theorem C8_witness :
    (runPlaysMp3 [(.ok, ("a.mp3".data)), (.ok, ("b.mp3".data))] none 0).2 =
      [.soundCreate 0 ("a.mp3".data), .soundStop 0, .soundUnload 0,
        .soundCreate 1 ("b.mp3".data)] :=
  C8_theorem.2.2.2.2.2 ("a.mp3".data) ("b.mp3".data)

/-! ## Claim C9 -/
/-- C9 (counterexample): `transcribeAudio` with the credential absent and
the recording file missing fails with the missing-file error ('Audio file
does not exist'), not `MissingCredentialError`: the file-existence check
runs before the credential is resolved.  (No network request is attempted —
the event list is empty — but the claim's 'fails with
MissingCredentialError' is false for this operation.) -/
theorem C9_counterexample :
    transcribeAudio ⟨none⟩ (fun _ => false) (.ok none)
        ("file:///rec.m4a".data) = (.error .missingFile, []) ∧
    AppError.missingFile ≠ AppError.missingCredential := by
  exact ⟨rfl, by decide⟩

/-- C9 (amended): when the provider credential is absent, every one of the
three operations fails before any network request is attempted (its event
list is empty): chat completion and speech synthesis fail with
`MissingCredentialError`; transcription fails with `MissingCredentialError`
when the recording file exists, and with the missing-file error when it
does not, because its file-existence check precedes credential
resolution. -/
theorem C9_theorem :
    (∀ (cfg : Config) o msgs, cfg.openaiApiKey = none →
      chatCompletion cfg o msgs = (.error .missingCredential, [])) ∧
    (∀ (cfg : Config) o ts text voice, cfg.openaiApiKey = none →
      ttsToMp3 cfg o ts text voice = (.error .missingCredential, [])) ∧
    (∀ (cfg : Config) fs o uri, cfg.openaiApiKey = none → fs uri = true →
      transcribeAudio cfg fs o uri = (.error .missingCredential, [])) ∧
    (∀ (cfg : Config) fs o uri, cfg.openaiApiKey = none → fs uri = false →
      transcribeAudio cfg fs o uri = (.error .missingFile, [])) := by
  refine ⟨?_, ?_, ?_, ?_⟩
  · intro cfg o msgs hk
    unfold chatCompletion
    rw [hk]
  · intro cfg o ts text voice hk
    unfold ttsToMp3
    rw [hk]
  · intro cfg fs o uri hk hfs
    unfold transcribeAudio
    rw [hfs, hk]
    rfl
  · intro cfg fs o uri hk hfs
    unfold transcribeAudio
    rw [hfs]
    rfl

/-- C9 witness: all three operations at a concrete credential-less
configuration, with an existing recording file for the transcription
case. -/
theorem C9_witness :
    chatCompletion ⟨none⟩ (.ok (some ("x".data))) [systemMsg] =
      (.error .missingCredential, []) ∧
    ttsToMp3 ⟨none⟩ (.ok ()) 7 ("x".data) ("nova".data) =
      (.error .missingCredential, []) ∧
    transcribeAudio ⟨none⟩ (fun _ => true) (.ok (some ("x".data)))
        ("file:///rec.m4a".data) = (.error .missingCredential, []) :=
  ⟨C9_theorem.1 ⟨none⟩ (.ok (some ("x".data))) [systemMsg] rfl,
   C9_theorem.2.1 ⟨none⟩ (.ok ()) 7 ("x".data) ("nova".data) rfl,
   C9_theorem.2.2.1 ⟨none⟩ (fun _ => true) (.ok (some ("x".data)))
     ("file:///rec.m4a".data) rfl rfl⟩

end TravelAssistant

